import Mathlib

/-!
# Sample access for ibuffers: decoding of stored samples and the interpolation attribute

A shallow embedding of `AH_MaxMSP_Headers/ibuffer_access.hpp` and of
`AH_MaxMSP_Headers/nextafterf.c`.

* Sample storage is the byte-addressed memory behind `void *samples`; addresses are counted
  from that pointer and words are little-endian, as the 24-bit reader of the header assumes.
* `intptr_t`, `long` and the addresses computed from them are mathematical integers: an
  offset whose product with the channel count left the range of `intptr_t` lies outside any
  storage, and address arithmetic is a sum of products, on which wrapping has no effect of
  its own.  The one place where a wrapped integer is compared, the numeric argument of the
  attribute setter, is modelled with the 64-bit wrap.
* A `double` that the code returns is described by its value (`Double`); every `double`
  operation the readers perform is exact (see `Double.scaled`).
* A `float` of `nextafterf.c` is its 32-bit word; the words are unsigned, as the file
  declares them, and float sums and products are rounded to nearest.
-/

namespace IBuffer

/-! ## Words and bytes -/

/-- The signed integer that the low `bits` bits of `w` denote in two's complement. -/
def to_signed (bits : Nat) (w : Nat) : Int :=
  if w % 2 ^ bits < 2 ^ (bits - 1) then ((w % 2 ^ bits : Nat) : Int)
  else ((w % 2 ^ bits : Nat) : Int) - ((2 ^ bits : Nat) : Int)

/-- Raw sample storage: the byte found at each address, counted from `samples`.  It extends
on both sides of the buffer because the readers never check an address. -/
abbrev Storage := Int → Nat

/-- One byte of storage. -/
def load_byte (m : Storage) (a : Int) : Nat := m a % 256

/-- The little-endian word made of the `n` bytes at addresses `a`, `a + 1`, ... -/
def load_word : Nat → Storage → Int → Nat
  | 0, _, _ => 0
  | n + 1, m, a => load_byte m a + 256 * load_word n m (a + 1)

/-- The addresses `a`, `a + 1`, ..., `a + n - 1` that an `n`-byte load touches. -/
def load_addrs : Nat → Int → List Int
  | 0, _ => []
  | n + 1, a => a :: load_addrs n (a + 1)

/-- What running a reader gives: the value returned and the addresses of storage it loaded
from, in the order of the loads. -/
structure Access (α : Type) where
  val : α
  reads : List Int

/-- A value obtained without touching storage. -/
def Access.pure {α : Type} (v : α) : Access α := ⟨v, []⟩

/-- Further computation on a loaded value; no further loads. -/
def Access.map {α β : Type} (f : α → β) (x : Access α) : Access β := ⟨f x.val, x.reads⟩

/-- An `n`-byte load at address `a`, as done by dereferencing a pointer to an `n`-byte
type. -/
def load (n : Nat) (m : Storage) (a : Int) : Access Nat := ⟨load_word n m a, load_addrs n a⟩

/-! ## Floating-point values -/

/-- The value of a `double`: a rational (with `finite 0` for `+0.0`), `-0.0`, an infinity
or a NaN. -/
inductive Double where
  | finite (q : ℚ)
  | negZero
  | inf (negative : Bool)
  | nan
  deriving DecidableEq

/-- The magnitude `mant * 2 ^ (e - 150)` of a float with biased exponent `e`. -/
def float_magnitude (mant e : Nat) : ℚ :=
  if 150 ≤ e then (mant : ℚ) * 2 ^ (e - 150) else (mant : ℚ) / 2 ^ (150 - e)

/-- The `double` to which the 32-bit `float` with word `w` converts: sign in bit 31, biased
exponent in bits 23-30, fraction in bits 0-22.  The conversion is exact for every float. -/
def float_to_double (w : Nat) : Double :=
  let negative := w / 2 ^ 31 % 2 = 1
  let e := w / 2 ^ 23 % 256
  let frac := w % 2 ^ 23
  if e = 255 then (if frac = 0 then Double.inf (decide negative) else Double.nan)
  else if e = 0 then
    (if frac = 0 then (if negative then Double.negZero else Double.finite 0)
     else Double.finite ((if negative then -1 else 1) * float_magnitude frac 1))
  else Double.finite ((if negative then -1 else 1) * float_magnitude (2 ^ 23 + frac) e)

/-- The product `s * x` in `double` arithmetic for a scale `s = 2 ^ (-k)` with `k ≤ 31` and
`x` an integer of at most 32 bits or a converted float: the exponent only moves by `k`, far
from the limits of the `double` range, so nothing is rounded and the product has the exact
value. -/
def Double.scaled (s : ℚ) : Double → Double
  | Double.finite q => Double.finite (s * q)
  | Double.negZero => Double.negZero
  | Double.inf n => Double.inf n
  | Double.nan => Double.nan

/-! ## The buffer descriptor -/

/-- The tag `enum BufferType`. -/
inductive BufferType where
  | kBufferNone
  | kBufferIBuffer
  | kBufferMaxBuffer
  deriving DecidableEq

/-- Modelled from the spec: `ibuffer.h`, which defines the format codes `PCM_FLOAT`,
`PCM_INT_16`, `PCM_INT_24` and `PCM_INT_32`, is not among the sources.  The spec gives the
format as one of Float32, PCM16, PCM24, PCM32 or Unknown; `other code` is a value of the
`long` that is none of the four codes. -/
inductive PCMFormat where
  | PCM_FLOAT
  | PCM_INT_16
  | PCM_INT_24
  | PCM_INT_32
  | other (code : Int)
  deriving DecidableEq

/-- The data members of `class ibuffer_data` (without the pointer to the host object). -/
structure ibuffer_data where
  buffer_type : BufferType
  samples : Storage
  length : Int
  num_chans : Int
  format : PCMFormat
  sample_rate : ℚ

/-- The accessor `get_samples`. -/
def ibuffer_data.get_samples (d : ibuffer_data) : Storage := d.samples

/-- The accessor `get_length`. -/
def ibuffer_data.get_length (d : ibuffer_data) : Int := d.length

/-- The accessor `get_num_chans`. -/
def ibuffer_data.get_num_chans (d : ibuffer_data) : Int := d.num_chans

/-- The accessor `get_format`. -/
def ibuffer_data.get_format (d : ibuffer_data) : PCMFormat := d.format

/-! ## Reading different formats -/

/-- The storage types `T` with which `fetch<T, bit_scale>` is instantiated. -/
inductive SampleType where
  | float
  | int16_t
  | int32_t
  deriving DecidableEq

/-- The size `sizeof(T)` in bytes. -/
def SampleType.sizeof : SampleType → Nat
  | SampleType.float => 4
  | SampleType.int16_t => 2
  | SampleType.int32_t => 4

/-- The conversion of a stored `T`, given by its word, to `double`. -/
def SampleType.to_double : SampleType → Nat → Double
  | SampleType.float, w => float_to_double w
  | SampleType.int16_t, w => Double.finite (to_signed 16 w)
  | SampleType.int32_t, w => Double.finite (to_signed 32 w)

/-- Modelled from the spec: the base class `table_fetcher<float>` comes from
`TableReader.hpp`, which is not among the sources.  Its constructor takes the scale, the
reciprocal of the spec's normalization divisor, and keeps it as the `double` member `scale`
that `get` multiplies by. -/
structure table_fetcher where
  scale : ℚ

/-- The members of a `fetch` object: the base class, the pointer `samples` (as an address
of the storage it points into) and `num_chans`. -/
structure fetch extends table_fetcher where
  store : Storage
  samples : Int
  num_chans : Int

/-- The constructor of `fetch<T, bit_scale>`: scale `1.0 / (1 << (bit_scale - 1))`, and
`samples` is the storage pointer converted to `T *`, plus `chan`. -/
def fetch.new (T : SampleType) (bit_scale : Nat) (data : ibuffer_data) (chan : Int) : fetch :=
  { scale := 1 / 2 ^ (bit_scale - 1)
    store := data.get_samples
    samples := T.sizeof * chan
    num_chans := data.get_num_chans }

/-- The call operator `fetch<T, bit_scale>::operator()`: the element
`samples[offset * num_chans]`, as the word loaded. -/
def fetch.call (T : SampleType) (f : fetch) (offset : Int) : Access Nat :=
  load T.sizeof f.store (f.samples + T.sizeof * (offset * f.num_chans))

/-- The member `fetch<T, bit_scale>::get`. -/
def fetch.get (T : SampleType) (bit_scale : Nat) (f : fetch) (offset : Int) : Access Double :=
  if bit_scale ≠ 1 then (fetch.call T f offset).map (fun w => Double.scaled f.scale (T.to_double w))
  else (fetch.call T f offset).map T.to_double

/-- The constructor of the specialisation `fetch<int32_t, 24>`: scale `1.0 / (1 << 31)`, and
`samples` is the storage pointer converted to `uint8_t *`, plus `3 * chan`. -/
def fetch_24bit.new (data : ibuffer_data) (chan : Int) : fetch :=
  { scale := 1 / 2 ^ 31
    store := data.get_samples
    samples := 3 * chan
    num_chans := data.get_num_chans }

/-- The call operator of `fetch<int32_t, 24>`: the `uint32_t` found one byte before the
sample, masked with `0xFFFFFF00` and returned as `int32_t`. -/
def fetch_24bit.call (f : fetch) (offset : Int) : Access Int :=
  (load 4 f.store (f.samples + (offset * 3 * f.num_chans - 1))).map
    (fun w => to_signed 32 (w &&& 0xFFFFFF00))

/-- The member `get` of `fetch<int32_t, 24>`. -/
def fetch_24bit.get (f : fetch) (offset : Int) : Access Double :=
  (fetch_24bit.call f offset).map (fun (v : Int) => Double.scaled f.scale (Double.finite (v : ℚ)))

/-- Get the value of an individual sample. -/
def ibuffer_get_samp (buffer : ibuffer_data) (offset : Int) (chan : Int) : Access Double :=
  match buffer.get_format with
  | PCMFormat.PCM_FLOAT => fetch.get SampleType.float 1 (fetch.new SampleType.float 1 buffer chan) offset
  | PCMFormat.PCM_INT_16 =>
    fetch.get SampleType.int16_t 16 (fetch.new SampleType.int16_t 16 buffer chan) offset
  | PCMFormat.PCM_INT_24 => fetch_24bit.get (fetch_24bit.new buffer chan) offset
  | PCMFormat.PCM_INT_32 =>
    fetch.get SampleType.int32_t 32 (fetch.new SampleType.int32_t 32 buffer chan) offset
  | PCMFormat.other _ => Access.pure (Double.finite 0)

/-! ## What is stored where -/

/-- The element with index `i` of storage seen as an array of `size`-byte words. -/
def stored_element (size : Nat) (m : Storage) (i : Int) : Nat := load_word size m (size * i)

/-- Storage holding the 32-bit words `ws` from address 0 on, and zero bytes elsewhere. -/
def storage_of_words (ws : List Nat) : Storage := fun a =>
  if 0 ≤ a then ws.getD (a.toNat / 4) 0 / 256 ^ (a.toNat % 4) % 256 else 0

/-- The one-channel float buffer `[0, 0.25, 0.5, 0.75, 1.0, 0.75, 0.5, 0.25]`. -/
def example_buffer : ibuffer_data :=
  { buffer_type := BufferType.kBufferIBuffer
    samples := storage_of_words
      [0x00000000, 0x3E800000, 0x3F000000, 0x3F400000, 0x3F800000, 0x3F400000, 0x3F000000, 0x3E800000]
    length := 8
    num_chans := 1
    format := PCMFormat.PCM_FLOAT
    sample_rate := 44100 }

/-- Storage holding the bytes `bs` from address 0 on, and zero bytes elsewhere. -/
def storage_of_bytes (bs : List Nat) : Storage := fun a =>
  if 0 ≤ a then bs.getD a.toNat 0 else 0

/-- A buffer of the given format, channel count and length over the bytes `bs`. -/
def buffer_of_bytes (format : PCMFormat) (num_chans length : Int) (bs : List Nat) : ibuffer_data :=
  { buffer_type := BufferType.kBufferIBuffer
    samples := storage_of_bytes bs
    length := length
    num_chans := num_chans
    format := format
    sample_rate := 44100 }

/-- Two frames of two 16-bit channels: `(0x4000, 0xC000)` and `(0x7FFF, 0x8000)`. -/
def example_pcm16 : ibuffer_data :=
  buffer_of_bytes PCMFormat.PCM_INT_16 2 2 [0x00, 0x40, 0x00, 0xC0, 0xFF, 0x7F, 0x00, 0x80]

/-- Two frames of one 32-bit channel: `0x40000000` and `0x80000000`. -/
def example_pcm32 : ibuffer_data :=
  buffer_of_bytes PCMFormat.PCM_INT_32 1 2 [0x00, 0x00, 0x00, 0x40, 0x00, 0x00, 0x00, 0x80]

/-- The byte `k` of the packed 24-bit sample of frame `offset`, channel `chan`: the byte at
index `3 * (offset * C + chan) + k` of the storage. -/
def pcm24_byte (buffer : ibuffer_data) (offset chan : Int) (k : Int) : Nat :=
  load_byte buffer.samples (3 * (offset * buffer.num_chans + chan) + k)

/-- One frame of two packed 24-bit channels: `0x400000` and `0x800000`. -/
def example_pcm24 : ibuffer_data :=
  buffer_of_bytes PCMFormat.PCM_INT_24 2 1 [0x00, 0x00, 0x40, 0x00, 0x00, 0x80]

/-- A buffer whose format code is none of the four known ones. -/
def example_unknown : ibuffer_data :=
  buffer_of_bytes (PCMFormat.other 7) 1 2 [0x12, 0x34, 0x56, 0x78]

/-! ## Encoding a normalized value (the other half of the round trip) -/

/-- Modelled from the spec: the repository has no encoder; the spec's round trip encodes a
normalized value `v` "into the raw integer representation at its divisor's precision".
Here that is the integer nearest to `v * d`, kept within the range `[-d, d - 1]` of the
signed integer type whose divisor is `d`. -/
def encode_raw (d : Nat) (v : ℚ) : Int :=
  max (-(d : Int)) (min ((d : Int) - 1) (round (v * (d : ℚ))))

/-- The `bits`-bit two's-complement word of an integer. -/
def to_word (bits : Nat) (r : Int) : Nat := (r % 2 ^ bits).toNat

/-- Byte `k` of a word, byte 0 being the lowest. -/
def word_byte (w : Nat) (k : Nat) : Nat := w / 256 ^ k % 256

/-- Modelled from the spec: the bytes a format stores for the normalized value `v`, in
storage order.  The 16- and 32-bit formats store the whole raw integer at their divisors
`2 ^ 15` and `2 ^ 31`; the packed 24-bit format has room for the three high bytes of the
raw integer at its divisor `2 ^ 31`; the other formats are not part of the round trip. -/
def store_sample : PCMFormat → ℚ → List Nat
  | PCMFormat.PCM_INT_16, v =>
    [word_byte (to_word 16 (encode_raw (2 ^ 15) v)) 0, word_byte (to_word 16 (encode_raw (2 ^ 15) v)) 1]
  | PCMFormat.PCM_INT_24, v =>
    [word_byte (to_word 32 (encode_raw (2 ^ 31) v)) 1, word_byte (to_word 32 (encode_raw (2 ^ 31) v)) 2,
     word_byte (to_word 32 (encode_raw (2 ^ 31) v)) 3]
  | PCMFormat.PCM_INT_32, v =>
    [word_byte (to_word 32 (encode_raw (2 ^ 31) v)) 0, word_byte (to_word 32 (encode_raw (2 ^ 31) v)) 1,
     word_byte (to_word 32 (encode_raw (2 ^ 31) v)) 2, word_byte (to_word 32 (encode_raw (2 ^ 31) v)) 3]
  | _, _ => []

/-- The sample of frame `offset`, channel `chan` consists of the bytes `bs`: with `n` the
number of bytes of a sample, byte `k` of the sample is at index `n * (offset * C + chan) + k`
of the storage. -/
def holds_sample (buffer : ibuffer_data) (offset chan : Int) (bs : List Nat) : Prop :=
  ∀ k : Nat, k < bs.length →
    load_byte buffer.samples ((bs.length : Int) * (offset * buffer.num_chans + chan) + (k : Int))
      = bs.getD k 0

/-- The one-channel, one-frame buffer in which the value `v` has been stored. -/
def encoded_buffer (format : PCMFormat) (v : ℚ) : ibuffer_data :=
  buffer_of_bytes format 1 1 (store_sample format v)

/-- The distance within which a fixed-point format reproduces a stored value: one unit of
the integer the format holds, which for the packed 24-bit format is `2 ^ 8` units of its
divisor `2 ^ 31`. -/
def quantization_step : PCMFormat → ℚ
  | PCMFormat.PCM_INT_16 => 1 / 2 ^ 15
  | PCMFormat.PCM_INT_24 => 2 ^ 8 / 2 ^ 31
  | PCMFormat.PCM_INT_32 => 1 / 2 ^ 31
  | _ => 0

/-! ## Interpolation attributes -/

/-- Modelled from the spec: `enum InterpType` is declared in `TableReader.hpp`, which is not
among the sources.  The spec lists the kernels as Linear, CubicHermite, CubicBSpline,
CubicLagrange; the enumerators are numbered from 0 in that order, as a C++ enumeration
numbers them.  A stored kernel is the integer value of the member `interp_type`, which the
attribute also declares as a `long`; it may hold a value that is no enumerator. -/
abbrev InterpType := Int

/-- Modelled from the spec: the enumerator of the kernel Linear, the first of
`enum InterpType`. -/
def kInterpLinear : InterpType := 0

/-- Modelled from the spec: the enumerator of the kernel CubicHermite, the second of
`enum InterpType`. -/
def kInterpCubicHermite : InterpType := 1

/-- Modelled from the spec: the enumerator of the kernel CubicBSpline, the third of
`enum InterpType`. -/
def kInterpCubicBSpline : InterpType := 2

/-- Modelled from the spec: the enumerator of the kernel CubicLagrange, the fourth of
`enum InterpType`. -/
def kInterpCubicLagrange : InterpType := 3

/-- The kernels in the order of the symbolic names `linear hermite bspline lagrange`. -/
def kernel_order : List InterpType :=
  [kInterpLinear, kInterpCubicHermite, kInterpCubicBSpline, kInterpCubicLagrange]

/-- The error codes of the host that the attribute functions return. -/
inductive t_max_err where
  | MAX_ERR_NONE
  | MAX_ERR_GENERIC
  deriving DecidableEq

/-- An argument of the host: an integer (of type `t_atom_long`) or a symbol, given by its
name.  Symbols are interned by `gensym`, so two symbols are the same pointer exactly when
their names are equal. -/
inductive t_atom where
  | A_LONG (value : Int)
  | A_SYM (name : String)
  deriving DecidableEq

/-- The width of `t_atom_long` on a 64-bit host. -/
def t_atom_long_bits : Nat := 64

/-- The value that an integer result has in `t_atom_long`: two's-complement wrap. -/
def wrap_atom_long (n : Int) : Int :=
  (n + 2 ^ (t_atom_long_bits - 1)) % 2 ^ t_atom_long_bits - 2 ^ (t_atom_long_bits - 1)

/-- The values an atom of type `A_LONG` can hold. -/
def in_atom_long_range (n : Int) : Prop :=
  -(2 ^ (t_atom_long_bits - 1)) ≤ n ∧ n < 2 ^ (t_atom_long_bits - 1)

instance (n : Int) : Decidable (in_atom_long_range n) := by
  unfold in_atom_long_range
  exact inferInstance

/-- The members of the object class `T` that the attribute functions use: the stored kernel
and the class name that `object_classname` gives. -/
structure interp_object where
  interp_type : InterpType
  classname : String
  deriving DecidableEq

/-- What a call of the setter leaves behind: the object, the error code returned and the
messages posted with `object_error`. -/
structure set_result where
  x : interp_object
  err : t_max_err
  posted : List String
  deriving DecidableEq

/-- The attribute setter `ibuf_interp_attribute_set<T, defaultValue>`; `argv` is the list of
the `argc` arguments. -/
def ibuf_interp_attribute_set (defaultValue : InterpType) (x : interp_object)
    (argv : List t_atom) : set_result :=
  match argv with
  | [] => { x := { x with interp_type := defaultValue }, err := t_max_err.MAX_ERR_NONE, posted := [] }
  | t_atom.A_SYM type :: _ =>
    if type = "linear" then
      { x := { x with interp_type := kInterpLinear }, err := t_max_err.MAX_ERR_NONE, posted := [] }
    else if type = "hermite" then
      { x := { x with interp_type := kInterpCubicHermite }, err := t_max_err.MAX_ERR_NONE, posted := [] }
    else if type = "bspline" then
      { x := { x with interp_type := kInterpCubicBSpline }, err := t_max_err.MAX_ERR_NONE, posted := [] }
    else if type = "lagrange" then
      { x := { x with interp_type := kInterpCubicLagrange }, err := t_max_err.MAX_ERR_NONE, posted := [] }
    else
      { x := x, err := t_max_err.MAX_ERR_NONE
        posted := [x.classname ++ ": no interpolation mode " ++ type] }
  | t_atom.A_LONG value :: _ =>
    let index := wrap_atom_long (value - 1)
    let index := if index < 0 then 0 else index
    let index := if index > 3 then 3 else index
    { x := { x with interp_type := index }, err := t_max_err.MAX_ERR_NONE, posted := [] }

/-- What a call of the getter leaves behind: the object, the error code returned and the
atoms found in `*argv` (`argc` being their number), or `none` when nothing was written. -/
structure get_result where
  x : interp_object
  err : t_max_err
  argv : Option (List t_atom)
  deriving DecidableEq

/-- The attribute getter `ibuf_interp_attribute_get<T>`.  `supplied` says that both of the
pointers `argc` and `argv` are non-null; `alloc_error` is the result of the host function
`atom_alloc`, which on success (zero) leaves exactly one atom in `*argv`. -/
def ibuf_interp_attribute_get (x : interp_object) (supplied : Bool) (alloc_error : Bool) :
    get_result :=
  if supplied then
    if alloc_error then { x := x, err := t_max_err.MAX_ERR_GENERIC, argv := none }
    else if x.interp_type = kInterpLinear then
      { x := x, err := t_max_err.MAX_ERR_NONE, argv := some [t_atom.A_SYM "linear"] }
    else if x.interp_type = kInterpCubicHermite then
      { x := x, err := t_max_err.MAX_ERR_NONE, argv := some [t_atom.A_SYM "hermite"] }
    else if x.interp_type = kInterpCubicBSpline then
      { x := x, err := t_max_err.MAX_ERR_NONE, argv := some [t_atom.A_SYM "bspline"] }
    else if x.interp_type = kInterpCubicLagrange then
      { x := x, err := t_max_err.MAX_ERR_NONE, argv := some [t_atom.A_SYM "lagrange"] }
    else
      { x := x, err := t_max_err.MAX_ERR_NONE, argv := some [t_atom.A_SYM "linear"] }
  else { x := x, err := t_max_err.MAX_ERR_NONE, argv := none }

/-- The symbolic name of a stored kernel, as the `switch` of the getter chooses it. -/
def kernel_name (k : InterpType) : String :=
  if k = kInterpLinear then "linear"
  else if k = kInterpCubicHermite then "hermite"
  else if k = kInterpCubicBSpline then "bspline"
  else if k = kInterpCubicLagrange then "lagrange"
  else "linear"

/-- The byte indices of the storage of a packed 24-bit buffer: `0 ≤ a < 3 * L * C` for
length `L` and `C` channels. -/
def in_pcm24_extent (buffer : ibuffer_data) (a : Int) : Prop :=
  0 ≤ a ∧ a < 3 * buffer.length * buffer.num_chans

instance (buffer : ibuffer_data) (a : Int) : Decidable (in_pcm24_extent buffer a) := by
  unfold in_pcm24_extent
  exact inferInstance

/-- Storage indexing with a bound: the value of an access all of whose loads fall on the
indices `0 ≤ a < extent`, and `none` when one of them falls outside. -/
def Access.checked {α : Type} (extent : Int) (x : Access α) : Option α :=
  if x.reads.all (fun a => decide (0 ≤ a ∧ a < extent)) then some x.val else none

/-- The 24-bit buffer `example_pcm24` with other bytes before channel 1 and one more byte
after it. -/
def example_pcm24_other : ibuffer_data :=
  buffer_of_bytes PCMFormat.PCM_INT_24 2 1 [0xAA, 0xBB, 0xCC, 0x00, 0x00, 0x80, 0xFF]

/-! ## Runs of samples and interpolated reads -/

/-- Modelled from the spec: `ibuffer_get_samps` is only declared in the header; its
definition (`ibuffer_access.cpp`) is not among the sources.  The spec (4.2) has it fill
`out`, of length `n_samps`, with consecutive decoded samples starting at `offset`; when
`reverse` is true the samples are fetched in descending order `offset, offset - 1, ...` and
written in forward array order, index 0 holding the first fetched.  The list is the content
of `out` after the call, for the `double` output. -/
def ibuffer_get_samps (buffer : ibuffer_data) (offset : Int) (n_samps : Nat) (chan : Int)
    (reverse : Bool) : List Double :=
  (List.range n_samps).map (fun (k : Nat) =>
    (ibuffer_get_samp buffer (if reverse then offset - (k : Int) else offset + (k : Int)) chan).val)

/-- The number that a decoded sample stands for in the formulas of the spec; an infinity or
a NaN stands for none. -/
def Double.to_rat : Double → Option ℚ
  | Double.finite q => some q
  | Double.negZero => some 0
  | Double.inf _ => none
  | Double.nan => none

/-- The sample `s(i)` of the spec's kernels: the decoded sample of frame `i`. -/
def sample_value (buffer : ibuffer_data) (chan : Int) (i : Int) : Option ℚ :=
  (ibuffer_get_samp buffer i chan).val.to_rat

/-- Modelled from the spec: the Linear kernel (4.3), `s(i0) * (1 - f) + s(i0 + 1) * f`. -/
def interp_linear (s0 s1 f : ℚ) : ℚ := s0 * (1 - f) + s1 * f

/-- Modelled from the spec: `ibuffer_read` is only declared in the header; its definition
(`ibuffer_access.cpp`) is not among the sources.  The spec (4.3) gives
`output[i] = multiplier * interpolate(kernel, descriptor, channel, positions[i])` with
`i0 = floor(position)` and `f = position - i0`, and the formula of the Linear kernel.  The
formulas of the three 4-point kernels are not given; they are the parameter `cubic`, which
receives the kernel, the samples, `i0` and `f`.  Positions, multiplier and results are
numbers, in exact arithmetic (the rounding of the floating-point operations is not part of
the spec's formulas); a result is `none` when a sample it needs stands for no number. -/
def ibuffer_read (cubic : InterpType → (Int → Option ℚ) → Int → ℚ → Option ℚ)
    (buffer : ibuffer_data) (positions : List ℚ) (chan : Int) (mul : ℚ) (interp : InterpType) :
    List (Option ℚ) :=
  positions.map (fun position =>
    if interp = kInterpLinear then
      match sample_value buffer chan ⌊position⌋, sample_value buffer chan (⌊position⌋ + 1) with
      | some s0, some s1 => some (mul * interp_linear s0 s1 (position - (⌊position⌋ : ℚ)))
      | _, _ => none
    else
      (cubic interp (sample_value buffer chan) ⌊position⌋ (position - (⌊position⌋ : ℚ))).map
        (fun v => mul * v))

/-! ## `nextafterf.c`

A `float` is given by its 32-bit word.  The file declares `typedef unsigned long int32_t`,
so the words `hx`, `hy`, `ix`, `iy` are unsigned; they are modelled with 32 bits, the size at
which the word read by `GET_FLOAT_WORD` is the word of the float. -/

/-- The value of an integer result in the unsigned 32-bit type `int32_t` of `nextafterf.c`. -/
def wrap_uint32 (n : Int) : Nat := (n % 2 ^ 32).toNat

/-- The comparison `a == b` of two `double` values: equal numbers, with `-0.0` equal to
`+0.0`, or the same infinity; a NaN is equal to nothing. -/
def Double.eq : Double → Double → Bool
  | Double.finite p, Double.finite q => decide (p = q)
  | Double.finite p, Double.negZero => decide (p = 0)
  | Double.negZero, Double.finite q => decide (q = 0)
  | Double.negZero, Double.negZero => true
  | Double.inf s, Double.inf t => decide (s = t)
  | _, _ => false

/-- The comparison `a == b` of two floats given by their words. -/
def float_eq (a b : Nat) : Bool := Double.eq (float_to_double a) (float_to_double b)

/-- The integer nearest to `q`, ties to the even one. -/
def round_half_even (q : ℚ) : Int :=
  if q - (⌊q⌋ : ℚ) < 1 / 2 then ⌊q⌋
  else if 1 / 2 < q - (⌊q⌋ : ℚ) then ⌊q⌋ + 1
  else if ⌊q⌋ % 2 = 0 then ⌊q⌋ else ⌊q⌋ + 1

/-- The word, without the sign bit, of the float nearest to the magnitude `a ≥ 0` (round
to nearest, ties to even): a multiple of `2 ^ (-149)` below the least normal number, the
infinity from `2 ^ 128 - 2 ^ 103` on, and 24 significant bits in between. -/
def float_round_magnitude (a : ℚ) : Nat :=
  if a < 1 / 2 ^ 126 then (round_half_even (a * 2 ^ 149)).toNat
  else if 2 ^ 128 - 2 ^ 103 ≤ a then 0x7f800000
  else ((Int.log 2 a + 127) * 2 ^ 23
    + (round_half_even (a * (2 : ℚ) ^ (23 - Int.log 2 a)) - 2 ^ 23)).toNat

/-- The number that a `double` which is no infinity and no NaN stands for. -/
def Double.number : Double → ℚ
  | Double.finite q => q
  | _ => 0

/-- The float sum `a + b`, by words: a NaN operand gives its quiet NaN, infinities of
opposite sign give the default NaN, an infinity otherwise wins, a zero sum is `-0.0` only
when both operands are negative, and any other sum is rounded to the nearest float. -/
def float_add (a b : Nat) : Nat :=
  match float_to_double a, float_to_double b with
  | Double.nan, _ => a ||| 0x00400000
  | _, Double.nan => b ||| 0x00400000
  | Double.inf s, Double.inf t => if s = t then a else 0xffc00000
  | Double.inf _, _ => a
  | _, Double.inf _ => b
  | da, db =>
    if da.number + db.number = 0 then (a &&& b) &&& 0x80000000
    else if da.number + db.number < 0 then 0x80000000 + float_round_magnitude (-(da.number + db.number))
    else float_round_magnitude (da.number + db.number)

/-- The float product `a * b`, by words: a NaN operand gives its quiet NaN, an infinity
times zero the default NaN, and otherwise the sign is the exclusive or of the signs and the
magnitude is rounded to the nearest float. -/
def float_mul (a b : Nat) : Nat :=
  match float_to_double a, float_to_double b with
  | Double.nan, _ => a ||| 0x00400000
  | _, Double.nan => b ||| 0x00400000
  | Double.inf _, db =>
    if Double.eq db (Double.finite 0) then 0xffc00000 else ((a ^^^ b) &&& 0x80000000) + 0x7f800000
  | da, Double.inf _ =>
    if Double.eq da (Double.finite 0) then 0xffc00000 else ((a ^^^ b) &&& 0x80000000) + 0x7f800000
  | da, db => ((a ^^^ b) &&& 0x80000000) + float_round_magnitude |da.number * db.number|

/-- The function `nextafterf` of `nextafterf.c`, on the words of `x` and `y`. -/
def nextafterf (x y : Nat) : Nat :=
  let hx := x
  let hy := y
  let ix := hx &&& 0x7fffffff
  let iy := hy &&& 0x7fffffff
  if ix > 0x7f800000 ∨ iy > 0x7f800000 then float_add x y
  else if float_eq x y then y
  else if ix = 0 then
    let x1 := (hy &&& 0x80000000) ||| 1
    let t := float_mul x1 x1
    if float_eq t x1 then t else x1
  else
    let hx1 :=
      if hx ≥ 0 then
        (if hx > hy then wrap_uint32 ((hx : Int) - 1) else wrap_uint32 ((hx : Int) + 1))
      else
        (if hy ≥ 0 ∨ hx > hy then wrap_uint32 ((hx : Int) - 1) else wrap_uint32 ((hx : Int) + 1))
    let hy1 := hx1 &&& 0x7f800000
    if hy1 ≥ 0x7f800000 then float_add x x
    else if hy1 < 0x00800000 then
      (let t := float_mul x x
       if !(float_eq t x) then hx1 else hx1)
    else hx1

/-- The words of a float: 32 bits. -/
def is_float_word (w : Nat) : Prop := w < 2 ^ 32

/-- A float is a NaN when its exponent field is all ones and its fraction is not zero. -/
def is_nan (w : Nat) : Prop := w % 2 ^ 31 > 0x7f800000

/-- A float is a zero, `+0.0` or `-0.0`, when all bits but the sign are zero. -/
def is_zero (w : Nat) : Prop := w % 2 ^ 31 = 0

instance (w : Nat) : Decidable (is_float_word w) := by
  unfold is_float_word
  exact inferInstance

instance (w : Nat) : Decidable (is_nan w) := by
  unfold is_nan
  exact inferInstance

instance (w : Nat) : Decidable (is_zero w) := by
  unfold is_zero
  exact inferInstance

end IBuffer

namespace IBuffer

/-! ## Decoding: what `ibuffer_get_samp` returns -/

/-- C1. In a buffer of format `PCM_FLOAT`, `ibuffer_get_samp` returns, for every frame
offset and channel, exactly the 32-bit float stored as element `offset * C + chan` of the
storage (`C` the channel count), converted to `double` and not scaled. -/
theorem C1_float_identity (buffer : ibuffer_data) (offset chan : Int)
    (hf : buffer.format = PCMFormat.PCM_FLOAT) :
    (ibuffer_get_samp buffer offset chan).val
      = float_to_double (stored_element 4 buffer.samples (offset * buffer.num_chans + chan)) := by
  simp only [ibuffer_get_samp, ibuffer_data.get_format, hf, fetch.get, fetch.call, fetch.new,
    load, Access.map, stored_element, SampleType.sizeof, SampleType.to_double,
    ibuffer_data.get_samples, ibuffer_data.get_num_chans, ne_eq, not_true_eq_false, if_false]
  congr 2
  push_cast
  ring

/-- C1 on the buffer `[0, 0.25, 0.5, 0.75, 1.0, 0.75, 0.5, 0.25]`: offset 2 returns 0.5. -/
theorem C1_float_identity_witness :
    example_buffer.format = PCMFormat.PCM_FLOAT
      ∧ (ibuffer_get_samp example_buffer 2 0).val = Double.finite (1 / 2) :=
  ⟨rfl, (C1_float_identity example_buffer 2 0 rfl).trans (by
    have h : stored_element 4 example_buffer.samples (2 * example_buffer.num_chans + 0)
        = 0x3F000000 := by decide
    rw [h]
    norm_num [float_to_double, float_magnitude])⟩

/-- The value of `get` for the integer instances of `fetch<T, bit_scale>`. -/
theorem fetch_get_int_val (T : SampleType) (bit_scale : Nat) (buffer : ibuffer_data)
    (offset chan : Int) (hb : bit_scale ≠ 1) :
    (fetch.get T bit_scale (fetch.new T bit_scale buffer chan) offset).val
      = Double.scaled (1 / 2 ^ (bit_scale - 1))
          (T.to_double (stored_element T.sizeof buffer.samples (offset * buffer.num_chans + chan))) := by
  simp only [fetch.get, fetch.call, fetch.new, load, Access.map, stored_element,
    ibuffer_data.get_samples, ibuffer_data.get_num_chans, ne_eq, hb, not_false_eq_true, if_true]
  congr 3
  ring

/-- C2. In a buffer of format `PCM_INT_16` (respectively `PCM_INT_32`), `ibuffer_get_samp`
returns, for every frame offset and channel, the signed 16-bit (respectively 32-bit) integer
stored as element `offset * C + chan` divided by `2 ^ 15` (respectively `2 ^ 31`), as an
exact rational value. -/
theorem C2_pcm16_pcm32_value (buffer : ibuffer_data) (offset chan : Int) :
    (buffer.format = PCMFormat.PCM_INT_16 →
      (ibuffer_get_samp buffer offset chan).val = Double.finite
        ((to_signed 16 (stored_element 2 buffer.samples (offset * buffer.num_chans + chan)) : ℚ)
          / 2 ^ 15))
    ∧ (buffer.format = PCMFormat.PCM_INT_32 →
      (ibuffer_get_samp buffer offset chan).val = Double.finite
        ((to_signed 32 (stored_element 4 buffer.samples (offset * buffer.num_chans + chan)) : ℚ)
          / 2 ^ 31)) := by
  constructor
  · intro hf
    simp only [ibuffer_get_samp, ibuffer_data.get_format, hf]
    rw [fetch_get_int_val _ _ _ _ _ (by decide)]
    simp only [SampleType.to_double, SampleType.sizeof, Double.scaled]
    congr 1
    norm_num
    ring
  · intro hf
    simp only [ibuffer_get_samp, ibuffer_data.get_format, hf]
    rw [fetch_get_int_val _ _ _ _ _ (by decide)]
    simp only [SampleType.to_double, SampleType.sizeof, Double.scaled]
    congr 1
    norm_num
    ring

/-- C2 on two stored samples: the 16-bit word `0x8000` of frame 1, channel 1 decodes to
`-1`, and the 32-bit word `0x40000000` of frame 0 decodes to `1 / 2`. -/
theorem C2_pcm16_pcm32_value_witness :
    (example_pcm16.format = PCMFormat.PCM_INT_16
      ∧ (ibuffer_get_samp example_pcm16 1 1).val = Double.finite (-1))
    ∧ (example_pcm32.format = PCMFormat.PCM_INT_32
      ∧ (ibuffer_get_samp example_pcm32 0 0).val = Double.finite (1 / 2)) :=
  ⟨⟨rfl, ((C2_pcm16_pcm32_value example_pcm16 1 1).1 rfl).trans (by
      have h : to_signed 16 (stored_element 2 example_pcm16.samples
          (1 * example_pcm16.num_chans + 1)) = -32768 := by decide
      rw [h]
      norm_num)⟩,
   ⟨rfl, ((C2_pcm16_pcm32_value example_pcm32 0 0).2 rfl).trans (by
      have h : to_signed 32 (stored_element 4 example_pcm32.samples
          (0 * example_pcm32.num_chans + 0)) = 1073741824 := by decide
      rw [h]
      norm_num)⟩⟩

/-- Masking with `0xFFFFFF00` clears the low byte and everything above bit 31. -/
theorem land_mask_high (w : Nat) : w &&& 0xFFFFFF00 = 256 * (w / 256 % 2 ^ 24) := by
  have hM : (0xFFFFFF00 : Nat) = 2 ^ 8 * (2 ^ 24 - 1) := by norm_num
  have h256 : (256 : Nat) = 2 ^ 8 := by norm_num
  rw [hM, h256, ← Nat.shiftRight_eq_div_pow]
  apply Nat.eq_of_testBit_eq
  intro i
  simp only [Nat.testBit_land, Nat.testBit_mul_pow_two, Nat.testBit_two_pow_sub_one,
    Nat.testBit_mod_two_pow, Nat.testBit_shiftRight]
  by_cases h : 8 ≤ i
  · have : 8 + (i - 8) = i := by omega
    simp [h, this, Bool.and_comm]
  · simp [h]

theorem load_byte_lt (m : Storage) (a : Int) : load_byte m a < 256 :=
  Nat.mod_lt _ (by norm_num)

/-- The 32-bit integer that the 24-bit reader returns: the three bytes of the sample in
the three high bytes, the low byte zero. -/
theorem fetch_24bit_call_val (buffer : ibuffer_data) (offset chan : Int) :
    (fetch_24bit.call (fetch_24bit.new buffer chan) offset).val
      = to_signed 32 (pcm24_byte buffer offset chan 0 * 2 ^ 8
          + pcm24_byte buffer offset chan 1 * 2 ^ 16 + pcm24_byte buffer offset chan 2 * 2 ^ 24) := by
  simp only [fetch_24bit.call, fetch_24bit.new, load, Access.map, load_word, pcm24_byte,
    ibuffer_data.get_samples, ibuffer_data.get_num_chans, land_mask_high]
  have e0 : 3 * chan + (offset * 3 * buffer.num_chans - 1) + 1
      = 3 * (offset * buffer.num_chans + chan) + 0 := by ring
  have e1 : 3 * chan + (offset * 3 * buffer.num_chans - 1) + 1 + 1
      = 3 * (offset * buffer.num_chans + chan) + 1 := by ring
  have e2 : 3 * chan + (offset * 3 * buffer.num_chans - 1) + 1 + 1 + 1
      = 3 * (offset * buffer.num_chans + chan) + 2 := by ring
  rw [e2, e1, e0]
  have h0 := load_byte_lt buffer.samples (3 * (offset * buffer.num_chans + chan) + 0)
  have h1 := load_byte_lt buffer.samples (3 * (offset * buffer.num_chans + chan) + 1)
  have h2 := load_byte_lt buffer.samples (3 * (offset * buffer.num_chans + chan) + 2)
  have hp := load_byte_lt buffer.samples (3 * chan + (offset * 3 * buffer.num_chans - 1))
  congr 1
  omega

/-- A 24-bit sample placed in the three high bytes of a 32-bit word is 256 times the
sample. -/
theorem to_signed_high_bytes (b0 b1 b2 : Nat) :
    to_signed 32 (b0 * 2 ^ 8 + b1 * 2 ^ 16 + b2 * 2 ^ 24)
      = 256 * to_signed 24 (b0 + b1 * 2 ^ 8 + b2 * 2 ^ 16) := by
  unfold to_signed
  split_ifs <;> omega

/-- C3. In a buffer of format `PCM_INT_24`, `ibuffer_get_samp` returns, for every frame
offset and channel, the two's-complement 32-bit integer `b0 * 2^8 + b1 * 2^16 + b2 * 2^24`
divided by `2 ^ 31`, where `b0`, `b1`, `b2` are the bytes at indices
`3 * (offset * C + chan) + 0, 1, 2`; this equals the signed 24-bit little-endian sample
divided by `2 ^ 23`. -/
theorem C3_pcm24_value (buffer : ibuffer_data) (offset chan : Int)
    (hf : buffer.format = PCMFormat.PCM_INT_24) :
    (ibuffer_get_samp buffer offset chan).val = Double.finite
        ((to_signed 32 (pcm24_byte buffer offset chan 0 * 2 ^ 8
          + pcm24_byte buffer offset chan 1 * 2 ^ 16
          + pcm24_byte buffer offset chan 2 * 2 ^ 24) : ℚ) / 2 ^ 31)
    ∧ (to_signed 32 (pcm24_byte buffer offset chan 0 * 2 ^ 8
          + pcm24_byte buffer offset chan 1 * 2 ^ 16
          + pcm24_byte buffer offset chan 2 * 2 ^ 24) : ℚ) / 2 ^ 31
      = (to_signed 24 (pcm24_byte buffer offset chan 0 + pcm24_byte buffer offset chan 1 * 2 ^ 8
          + pcm24_byte buffer offset chan 2 * 2 ^ 16) : ℚ) / 2 ^ 23 := by
  constructor
  · simp only [ibuffer_get_samp, ibuffer_data.get_format, hf, fetch_24bit.get, Access.map,
      fetch_24bit_call_val, Double.scaled]
    congr 1
    simp only [fetch_24bit.new]
    ring
  · rw [to_signed_high_bytes]
    push_cast
    ring

/-- C3 on the stored sample `0x800000` of channel 1: it decodes to `-1`. -/
theorem C3_pcm24_value_witness :
    example_pcm24.format = PCMFormat.PCM_INT_24
      ∧ (ibuffer_get_samp example_pcm24 0 1).val = Double.finite (-1) :=
  ⟨rfl, (C3_pcm24_value example_pcm24 0 1 rfl).1.trans (by
    have h : to_signed 32 (pcm24_byte example_pcm24 0 1 0 * 2 ^ 8
        + pcm24_byte example_pcm24 0 1 1 * 2 ^ 16 + pcm24_byte example_pcm24 0 1 2 * 2 ^ 24)
        = -2147483648 := by decide
    rw [h]
    norm_num)⟩

/-- The addresses that the readers of the known formats load from: the bytes of element
`offset * C + chan` for the float, 16-bit and 32-bit formats, and the four bytes that start
one byte before the packed sample for the 24-bit format. -/
theorem ibuffer_get_samp_reads (buffer : ibuffer_data) (offset chan : Int) :
    (buffer.format = PCMFormat.PCM_FLOAT →
      (ibuffer_get_samp buffer offset chan).reads
        = load_addrs 4 (4 * (offset * buffer.num_chans + chan)))
    ∧ (buffer.format = PCMFormat.PCM_INT_16 →
      (ibuffer_get_samp buffer offset chan).reads
        = load_addrs 2 (2 * (offset * buffer.num_chans + chan)))
    ∧ (buffer.format = PCMFormat.PCM_INT_24 →
      (ibuffer_get_samp buffer offset chan).reads
        = load_addrs 4 (3 * (offset * buffer.num_chans + chan) - 1))
    ∧ (buffer.format = PCMFormat.PCM_INT_32 →
      (ibuffer_get_samp buffer offset chan).reads
        = load_addrs 4 (4 * (offset * buffer.num_chans + chan))) := by
  refine ⟨?_, ?_, ?_, ?_⟩ <;> intro hf <;>
    simp only [ibuffer_get_samp, ibuffer_data.get_format, hf, fetch.get, fetch.call, fetch.new,
      fetch_24bit.get, fetch_24bit.call, fetch_24bit.new, load, Access.map, SampleType.sizeof,
      ibuffer_data.get_samples, ibuffer_data.get_num_chans, ne_eq, not_true_eq_false, if_false,
      OfNat.ofNat_ne_one, not_false_eq_true, if_true] <;>
    congr 1 <;> push_cast <;> ring

/-- C4. In a buffer whose format is none of `PCM_FLOAT`, `PCM_INT_16`, `PCM_INT_24`,
`PCM_INT_32`, `ibuffer_get_samp` returns exactly `0.0` for every offset and channel, and
loads from no address of the sample storage. -/
theorem C4_unknown_format_zero (buffer : ibuffer_data) (offset chan : Int)
    (hfloat : buffer.format ≠ PCMFormat.PCM_FLOAT) (h16 : buffer.format ≠ PCMFormat.PCM_INT_16)
    (h24 : buffer.format ≠ PCMFormat.PCM_INT_24) (h32 : buffer.format ≠ PCMFormat.PCM_INT_32) :
    (ibuffer_get_samp buffer offset chan).val = Double.finite 0
      ∧ (ibuffer_get_samp buffer offset chan).reads = [] := by
  unfold ibuffer_get_samp ibuffer_data.get_format
  cases hfmt : buffer.format with
  | PCM_FLOAT => exact absurd hfmt hfloat
  | PCM_INT_16 => exact absurd hfmt h16
  | PCM_INT_24 => exact absurd hfmt h24
  | PCM_INT_32 => exact absurd hfmt h32
  | other code => exact ⟨rfl, rfl⟩

/-- C4 on a buffer with the format code 7, whose storage is not all zero. -/
theorem C4_unknown_format_zero_witness :
    (example_unknown.format ≠ PCMFormat.PCM_FLOAT
      ∧ example_unknown.format ≠ PCMFormat.PCM_INT_16
      ∧ example_unknown.format ≠ PCMFormat.PCM_INT_24
      ∧ example_unknown.format ≠ PCMFormat.PCM_INT_32)
    ∧ (ibuffer_get_samp example_unknown 0 0).val = Double.finite 0
    ∧ (ibuffer_get_samp example_unknown 0 0).reads = [] :=
  ⟨⟨by decide, by decide, by decide, by decide⟩,
    C4_unknown_format_zero example_unknown 0 0 (by decide) (by decide) (by decide) (by decide)⟩

/-- The range of a 16-bit two's-complement integer. -/
theorem to_signed_16_range (w : Nat) : -32768 ≤ to_signed 16 w ∧ to_signed 16 w < 32768 := by
  unfold to_signed
  split_ifs <;> omega

/-- The range of a 32-bit two's-complement integer. -/
theorem to_signed_32_range (w : Nat) :
    -2147483648 ≤ to_signed 32 w ∧ to_signed 32 w < 2147483648 := by
  unfold to_signed
  split_ifs <;> omega

/-- A signed integer of `k + 1` bits divided by `2 ^ k` lies in `[-1, 1]`. -/
theorem scaled_in_unit_interval (v : Int) (d : ℚ) (hd : 0 < d) (hlo : -d ≤ (v : ℚ))
    (hhi : (v : ℚ) < d) : -1 ≤ 1 / d * (v : ℚ) ∧ 1 / d * (v : ℚ) ≤ 1 := by
  have e : 1 / d * (v : ℚ) = (v : ℚ) / d := by ring
  rw [e]
  constructor
  · rw [le_div_iff₀ hd]
    linarith
  · rw [div_le_iff₀ hd]
    linarith

/-- C5. In a buffer of one of the fixed-point formats `PCM_INT_16`, `PCM_INT_24` or
`PCM_INT_32`, the value that `ibuffer_get_samp` returns is a finite number in `[-1, 1]`,
for every offset and channel and whatever the storage holds. -/
theorem C5_fixed_point_in_unit_interval (buffer : ibuffer_data) (offset chan : Int)
    (hf : buffer.format = PCMFormat.PCM_INT_16 ∨ buffer.format = PCMFormat.PCM_INT_24
      ∨ buffer.format = PCMFormat.PCM_INT_32) :
    ∃ q : ℚ, (ibuffer_get_samp buffer offset chan).val = Double.finite q ∧ -1 ≤ q ∧ q ≤ 1 := by
  rcases hf with hf | hf | hf
  · simp only [ibuffer_get_samp, ibuffer_data.get_format, hf]
    rw [fetch_get_int_val _ _ _ _ _ (by decide)]
    simp only [SampleType.to_double, SampleType.sizeof, Double.scaled]
    refine ⟨_, rfl, ?_⟩
    have hb := to_signed_16_range
      (stored_element 2 buffer.samples (offset * buffer.num_chans + chan))
    apply scaled_in_unit_interval _ _ (by norm_num)
    · have := hb.1
      have h : ((-32768 : Int) : ℚ) ≤ _ := Int.cast_le.mpr this
      norm_num at h ⊢
      exact h
    · have := hb.2
      have h : _ < ((32768 : Int) : ℚ) := Int.cast_lt.mpr this
      norm_num at h ⊢
      exact h
  · simp only [ibuffer_get_samp, ibuffer_data.get_format, hf, fetch_24bit.get, Access.map,
      fetch_24bit_call_val, Double.scaled]
    refine ⟨_, rfl, ?_⟩
    have hb := to_signed_32_range (pcm24_byte buffer offset chan 0 * 2 ^ 8
          + pcm24_byte buffer offset chan 1 * 2 ^ 16 + pcm24_byte buffer offset chan 2 * 2 ^ 24)
    simp only [fetch_24bit.new]
    apply scaled_in_unit_interval _ _ (by norm_num)
    · have := hb.1
      have h : ((-2147483648 : Int) : ℚ) ≤ _ := Int.cast_le.mpr this
      norm_num at h ⊢
      exact h
    · have := hb.2
      have h : _ < ((2147483648 : Int) : ℚ) := Int.cast_lt.mpr this
      norm_num at h ⊢
      exact h
  · simp only [ibuffer_get_samp, ibuffer_data.get_format, hf]
    rw [fetch_get_int_val _ _ _ _ _ (by decide)]
    simp only [SampleType.to_double, SampleType.sizeof, Double.scaled]
    refine ⟨_, rfl, ?_⟩
    have hb := to_signed_32_range
      (stored_element 4 buffer.samples (offset * buffer.num_chans + chan))
    apply scaled_in_unit_interval _ _ (by norm_num)
    · have := hb.1
      have h : ((-2147483648 : Int) : ℚ) ≤ _ := Int.cast_le.mpr this
      norm_num at h ⊢
      exact h
    · have := hb.2
      have h : _ < ((2147483648 : Int) : ℚ) := Int.cast_lt.mpr this
      norm_num at h ⊢
      exact h

/-- C5 on the 16-bit buffer, at the stored word `0x8000`, which decodes to the end `-1` of
the interval. -/
theorem C5_fixed_point_in_unit_interval_witness :
    (example_pcm16.format = PCMFormat.PCM_INT_16 ∨ example_pcm16.format = PCMFormat.PCM_INT_24
      ∨ example_pcm16.format = PCMFormat.PCM_INT_32)
    ∧ ∃ q : ℚ, (ibuffer_get_samp example_pcm16 1 1).val = Double.finite q ∧ -1 ≤ q ∧ q ≤ 1 :=
  ⟨Or.inl rfl, C5_fixed_point_in_unit_interval example_pcm16 1 1 (Or.inl rfl)⟩

/-- The raw integer of a value in `[-1, 1]` lies in the range of its type and within one
unit of `v * d`. -/
theorem encode_raw_spec (d : Nat) (hd : 0 < d) (v : ℚ) (hlo : -1 ≤ v) (hhi : v ≤ 1) :
    -(d : Int) ≤ encode_raw d v ∧ encode_raw d v ≤ (d : Int) - 1
      ∧ |((encode_raw d v : Int) : ℚ) - v * (d : ℚ)| ≤ 1 := by
  have hdq : (0 : ℚ) < (d : ℚ) := by exact_mod_cast hd
  have hr := abs_sub_round (v * (d : ℚ))
  rw [abs_le] at hr
  have h1 : -(d : ℚ) ≤ v * d := by nlinarith
  have h2 : v * d ≤ (d : ℚ) := by nlinarith
  have hrlo : -(d : Int) ≤ round (v * (d : ℚ)) := by
    have : (-(d : ℚ) - 1) < ((round (v * (d : ℚ)) : Int) : ℚ) := by linarith [hr.1, hr.2]
    have : ((-(d : Int) - 1 : Int) : ℚ) < ((round (v * (d : ℚ)) : Int) : ℚ) := by
      push_cast
      linarith
    have := Int.cast_lt.mp this
    omega
  have hrhi : round (v * (d : ℚ)) ≤ (d : Int) := by
    have : ((round (v * (d : ℚ)) : Int) : ℚ) < ((d : Int) + 1 : Int) := by
      push_cast
      linarith [hr.1, hr.2]
    have := Int.cast_lt.mp this
    omega
  unfold encode_raw
  refine ⟨le_max_left _ _, ?_, ?_⟩
  · apply max_le
    · omega
    · exact min_le_left _ _
  · rcases lt_or_le (round (v * (d : ℚ))) (d : Int) with hlt | hge
    · have e : max (-(d : Int)) (min ((d : Int) - 1) (round (v * (d : ℚ)))) = round (v * (d : ℚ)) := by
        rw [min_eq_right (by omega), max_eq_right hrlo]
      rw [e, abs_le]
      constructor <;> linarith [hr.1, hr.2]
    · have hEq : round (v * (d : ℚ)) = (d : Int) := le_antisymm hrhi hge
      have e : max (-(d : Int)) (min ((d : Int) - 1) (round (v * (d : ℚ)))) = (d : Int) - 1 := by
        rw [min_eq_left (by omega), max_eq_right (by omega)]
      have hq : ((round (v * (d : ℚ)) : Int) : ℚ) = (d : ℚ) := by
        rw [hEq]
        push_cast
        rfl
      rw [e, abs_le]
      push_cast
      constructor <;> linarith [hr.1, hr.2]

/-- A value scaled by `1 / d` is as close to `v` as the unscaled one is to `v * d`, in
units of `1 / d`. -/
theorem within_step (r v d k : ℚ) (hd : 0 < d) (h : |r - v * d| ≤ k) :
    |1 / d * r - v| ≤ k / d := by
  have e : 1 / d * r - v = (r - v * d) / d := by
    field_simp
    ring
  rw [e, abs_div, abs_of_pos hd]
  exact div_le_div_of_nonneg_right h hd.le

/-- Reading back a 16-bit word as a signed integer. -/
theorem to_signed_to_word_16 (r : Int) (hlo : -32768 ≤ r) (hhi : r ≤ 32767) :
    to_signed 16 (to_word 16 r) = r := by
  unfold to_signed to_word
  split_ifs <;> omega

/-- Reading back a 32-bit word as a signed integer. -/
theorem to_signed_to_word_32 (r : Int) (hlo : -2147483648 ≤ r) (hhi : r ≤ 2147483647) :
    to_signed 32 (to_word 32 r) = r := by
  unfold to_signed to_word
  split_ifs <;> omega

/-- The three high bytes of a 32-bit word, read back with a zero low byte, give the integer
rounded down to a multiple of 256. -/
theorem to_signed_high_of_word (r : Int) (hlo : -2147483648 ≤ r) (hhi : r ≤ 2147483647) :
    to_signed 32 (word_byte (to_word 32 r) 1 * 2 ^ 8 + word_byte (to_word 32 r) 2 * 2 ^ 16
      + word_byte (to_word 32 r) 3 * 2 ^ 24) = r - r % 256 := by
  unfold to_signed to_word word_byte
  split_ifs <;> omega

theorem word_byte_lt (w k : Nat) : word_byte w k < 256 :=
  Nat.mod_lt _ (by norm_num)

/-- The buffer built by `encoded_buffer` holds the stored bytes as its sample 0 of channel 0. -/
theorem encoded_buffer_holds (format : PCMFormat) (v : ℚ) :
    holds_sample (encoded_buffer format v) 0 0 (store_sample format v) := by
  intro k hk
  have key : ∀ bs : List Nat, (∀ b ∈ bs, b < 256) → ∀ i : Nat,
      load_byte (storage_of_bytes bs) ((bs.length : Int) * (0 * 1 + 0) + (i : Int)) = bs.getD i 0 := by
    intro bs hbs i
    have e : (bs.length : Int) * (0 * 1 + 0) + (i : Int) = (i : Int) := by ring
    rw [e]
    simp only [load_byte, storage_of_bytes, Int.toNat_ofNat, Int.natCast_nonneg, if_true]
    apply Nat.mod_eq_of_lt
    rcases Nat.lt_or_ge i bs.length with hi | hi
    · rw [List.getD_eq_getElem _ _ hi]
      exact hbs _ (List.getElem_mem hi)
    · rw [List.getD_eq_default _ _ hi]
      norm_num
  apply key
  cases format <;> simp [store_sample, word_byte_lt]

/-- The bytes of a 16-bit element. -/
theorem stored_element_2 (m : Storage) (i : Int) :
    stored_element 2 m i = load_byte m (2 * i) + 256 * load_byte m (2 * i + 1) := by
  simp [stored_element, load_word]

/-- The bytes of a 32-bit element. -/
theorem stored_element_4 (m : Storage) (i : Int) :
    stored_element 4 m i = load_byte m (4 * i) + 256 * (load_byte m (4 * i + 1)
      + 256 * (load_byte m (4 * i + 2) + 256 * load_byte m (4 * i + 3))) := by
  simp [stored_element, load_word, add_assoc]

/-- Decoding a stored 16-bit value gives back its raw integer over `2 ^ 15`. -/
theorem round_trip_val_16 (buffer : ibuffer_data) (offset chan : Int) (v : ℚ)
    (hlo : -1 ≤ v) (hhi : v ≤ 1) (hf : buffer.format = PCMFormat.PCM_INT_16)
    (hs : holds_sample buffer offset chan (store_sample buffer.format v)) :
    (ibuffer_get_samp buffer offset chan).val
      = Double.finite (1 / 2 ^ 15 * ((encode_raw (2 ^ 15) v : Int) : ℚ)) := by
  have hr := encode_raw_spec (2 ^ 15) (by norm_num) v hlo hhi
  rw [hf] at hs
  have h0 : load_byte buffer.samples (2 * (offset * buffer.num_chans + chan))
      = word_byte (to_word 16 (encode_raw (2 ^ 15) v)) 0 := by
    have := hs 0 (by simp [store_sample])
    simpa [store_sample] using this
  have h1 : load_byte buffer.samples (2 * (offset * buffer.num_chans + chan) + 1)
      = word_byte (to_word 16 (encode_raw (2 ^ 15) v)) 1 := by
    have := hs 1 (by simp [store_sample])
    simpa [store_sample] using this
  simp only [ibuffer_get_samp, ibuffer_data.get_format, hf]
  rw [fetch_get_int_val _ _ _ _ _ (by decide)]
  simp only [SampleType.to_double, SampleType.sizeof, Double.scaled]
  rw [stored_element_2, h0, h1]
  have hw : word_byte (to_word 16 (encode_raw (2 ^ 15) v)) 0
      + 256 * word_byte (to_word 16 (encode_raw (2 ^ 15) v)) 1
      = to_word 16 (encode_raw (2 ^ 15) v) := by
    have hlt : to_word 16 (encode_raw (2 ^ 15) v) < 65536 := by
      unfold to_word
      omega
    unfold word_byte
    omega
  rw [hw, to_signed_to_word_16 _ (by have := hr.1; norm_num at this; omega)
    (by have := hr.2.1; norm_num at this; omega)]

/-- Decoding a stored 32-bit value gives back its raw integer over `2 ^ 31`. -/
theorem round_trip_val_32 (buffer : ibuffer_data) (offset chan : Int) (v : ℚ)
    (hlo : -1 ≤ v) (hhi : v ≤ 1) (hf : buffer.format = PCMFormat.PCM_INT_32)
    (hs : holds_sample buffer offset chan (store_sample buffer.format v)) :
    (ibuffer_get_samp buffer offset chan).val
      = Double.finite (1 / 2 ^ 31 * ((encode_raw (2 ^ 31) v : Int) : ℚ)) := by
  have hr := encode_raw_spec (2 ^ 31) (by norm_num) v hlo hhi
  rw [hf] at hs
  have h0 : load_byte buffer.samples (4 * (offset * buffer.num_chans + chan))
      = word_byte (to_word 32 (encode_raw (2 ^ 31) v)) 0 := by
    have := hs 0 (by simp [store_sample])
    simpa [store_sample] using this
  have h1 : load_byte buffer.samples (4 * (offset * buffer.num_chans + chan) + 1)
      = word_byte (to_word 32 (encode_raw (2 ^ 31) v)) 1 := by
    have := hs 1 (by simp [store_sample])
    simpa [store_sample] using this
  have h2 : load_byte buffer.samples (4 * (offset * buffer.num_chans + chan) + 2)
      = word_byte (to_word 32 (encode_raw (2 ^ 31) v)) 2 := by
    have := hs 2 (by simp [store_sample])
    simpa [store_sample] using this
  have h3 : load_byte buffer.samples (4 * (offset * buffer.num_chans + chan) + 3)
      = word_byte (to_word 32 (encode_raw (2 ^ 31) v)) 3 := by
    have := hs 3 (by simp [store_sample])
    simpa [store_sample] using this
  simp only [ibuffer_get_samp, ibuffer_data.get_format, hf]
  rw [fetch_get_int_val _ _ _ _ _ (by decide)]
  simp only [SampleType.to_double, SampleType.sizeof, Double.scaled]
  rw [stored_element_4, h0, h1, h2, h3]
  have hw : word_byte (to_word 32 (encode_raw (2 ^ 31) v)) 0
      + 256 * (word_byte (to_word 32 (encode_raw (2 ^ 31) v)) 1
        + 256 * (word_byte (to_word 32 (encode_raw (2 ^ 31) v)) 2
          + 256 * word_byte (to_word 32 (encode_raw (2 ^ 31) v)) 3))
      = to_word 32 (encode_raw (2 ^ 31) v) := by
    have hlt : to_word 32 (encode_raw (2 ^ 31) v) < 4294967296 := by
      unfold to_word
      omega
    unfold word_byte
    omega
  rw [hw, to_signed_to_word_32 _ (by have := hr.1; norm_num at this; omega)
    (by have := hr.2.1; norm_num at this; omega)]

/-- Decoding a stored 24-bit value gives back its raw integer, rounded down to a multiple
of 256, over `2 ^ 31`. -/
theorem round_trip_val_24 (buffer : ibuffer_data) (offset chan : Int) (v : ℚ)
    (hlo : -1 ≤ v) (hhi : v ≤ 1) (hf : buffer.format = PCMFormat.PCM_INT_24)
    (hs : holds_sample buffer offset chan (store_sample buffer.format v)) :
    (ibuffer_get_samp buffer offset chan).val
      = Double.finite (1 / 2 ^ 31
          * ((encode_raw (2 ^ 31) v - encode_raw (2 ^ 31) v % 256 : Int) : ℚ)) := by
  have hr := encode_raw_spec (2 ^ 31) (by norm_num) v hlo hhi
  rw [hf] at hs
  have h0 : pcm24_byte buffer offset chan 0
      = word_byte (to_word 32 (encode_raw (2 ^ 31) v)) 1 := by
    have := hs 0 (by simp [store_sample])
    simpa [store_sample, pcm24_byte] using this
  have h1 : pcm24_byte buffer offset chan 1
      = word_byte (to_word 32 (encode_raw (2 ^ 31) v)) 2 := by
    have := hs 1 (by simp [store_sample])
    simpa [store_sample, pcm24_byte] using this
  have h2 : pcm24_byte buffer offset chan 2
      = word_byte (to_word 32 (encode_raw (2 ^ 31) v)) 3 := by
    have := hs 2 (by simp [store_sample])
    simpa [store_sample, pcm24_byte] using this
  simp only [ibuffer_get_samp, ibuffer_data.get_format, hf, fetch_24bit.get, Access.map,
    fetch_24bit_call_val, Double.scaled]
  simp only [fetch_24bit.new]
  rw [h0, h1, h2, to_signed_high_of_word _ (by have := hr.1; norm_num at this; omega)
    (by have := hr.2.1; norm_num at this; omega)]

/-- C6, as amended. For a value `v` in `[-1, 1]` stored as the raw integer of its format,
`ibuffer_get_samp` returns a value `w` with `|w - v| ≤ 1 / 2 ^ 15` for `PCM_INT_16`,
`|w - v| ≤ 1 / 2 ^ 31` for `PCM_INT_32`, and `|w - v| ≤ 2 ^ 8 / 2 ^ 31 = 1 / 2 ^ 23` for
`PCM_INT_24`, whose three bytes hold the raw integer without its low byte. -/
theorem C6_round_trip_within_step (buffer : ibuffer_data) (offset chan : Int) (v : ℚ)
    (hlo : -1 ≤ v) (hhi : v ≤ 1)
    (hf : buffer.format = PCMFormat.PCM_INT_16 ∨ buffer.format = PCMFormat.PCM_INT_24
      ∨ buffer.format = PCMFormat.PCM_INT_32)
    (hs : holds_sample buffer offset chan (store_sample buffer.format v)) :
    ∃ w : ℚ, (ibuffer_get_samp buffer offset chan).val = Double.finite w
      ∧ |w - v| ≤ quantization_step buffer.format := by
  rcases hf with hf | hf | hf
  · refine ⟨_, round_trip_val_16 buffer offset chan v hlo hhi hf hs, ?_⟩
    have h := (encode_raw_spec (2 ^ 15) (by norm_num) v hlo hhi).2.2
    push_cast at h
    rw [hf]
    exact within_step _ _ _ _ (by norm_num) h
  · refine ⟨_, round_trip_val_24 buffer offset chan v hlo hhi hf hs, ?_⟩
    have h := (encode_raw_spec (2 ^ 31) (by norm_num) v hlo hhi).2.2
    rw [hf]
    apply within_step _ _ _ _ (by norm_num)
    generalize encode_raw (2 ^ 31) v = r at h ⊢
    have hq0 : (0 : ℚ) ≤ ((r % 256 : Int) : ℚ) :=
      Int.cast_nonneg.mpr (Int.emod_nonneg _ (by norm_num))
    have hq1 : ((r % 256 : Int) : ℚ) ≤ ((255 : Int) : ℚ) :=
      Int.cast_le.mpr (by omega)
    have e : (((2 : Nat) ^ 31 : Nat) : ℚ) = 2 ^ 31 := by norm_num
    have e256 : ((255 : Int) : ℚ) = 255 := by norm_num
    rw [e, abs_le] at h
    rw [e256] at hq1
    rw [abs_le, Int.cast_sub]
    constructor <;> linarith [h.1, h.2]
  · refine ⟨_, round_trip_val_32 buffer offset chan v hlo hhi hf hs, ?_⟩
    have h := (encode_raw_spec (2 ^ 31) (by norm_num) v hlo hhi).2.2
    push_cast at h
    rw [hf]
    exact within_step _ _ _ _ (by norm_num) h

/-- C6 on the 24-bit buffer in which `1 / 2 ^ 24` has been stored. -/
theorem C6_round_trip_within_step_witness :
    ((-1 : ℚ) ≤ 1 / 2 ^ 24 ∧ (1 : ℚ) / 2 ^ 24 ≤ 1
      ∧ (encoded_buffer PCMFormat.PCM_INT_24 (1 / 2 ^ 24)).format = PCMFormat.PCM_INT_24
      ∧ holds_sample (encoded_buffer PCMFormat.PCM_INT_24 (1 / 2 ^ 24)) 0 0
          (store_sample (encoded_buffer PCMFormat.PCM_INT_24 (1 / 2 ^ 24)).format (1 / 2 ^ 24)))
    ∧ ∃ w : ℚ, (ibuffer_get_samp (encoded_buffer PCMFormat.PCM_INT_24 (1 / 2 ^ 24)) 0 0).val
          = Double.finite w
        ∧ |w - 1 / 2 ^ 24| ≤ quantization_step (encoded_buffer PCMFormat.PCM_INT_24 (1 / 2 ^ 24)).format :=
  ⟨⟨by norm_num, by norm_num, rfl, encoded_buffer_holds _ _⟩,
    C6_round_trip_within_step (encoded_buffer PCMFormat.PCM_INT_24 (1 / 2 ^ 24)) 0 0 (1 / 2 ^ 24)
      (by norm_num) (by norm_num) (Or.inr (Or.inl rfl)) (encoded_buffer_holds _ _)⟩

/-- C6 fails for `PCM_INT_24` with the table divisor `2 ^ 31`: the value `1 / 2 ^ 24`, stored
and decoded, comes back as `0`, which is `2 ^ 7` times `1 / 2 ^ 31` away; and no content of
a 24-bit buffer decodes to within `1 / 2 ^ 31` of `1 / 2 ^ 24`, whatever the encoder. -/
theorem C6_counterexample_pcm24 :
    (ibuffer_get_samp (encoded_buffer PCMFormat.PCM_INT_24 (1 / 2 ^ 24)) 0 0).val = Double.finite 0
    ∧ ¬ |(0 : ℚ) - 1 / 2 ^ 24| ≤ 1 / 2 ^ 31
    ∧ ¬ ∃ (buffer : ibuffer_data) (offset chan : Int) (w : ℚ),
        buffer.format = PCMFormat.PCM_INT_24
          ∧ (ibuffer_get_samp buffer offset chan).val = Double.finite w
          ∧ |w - 1 / 2 ^ 24| ≤ 1 / 2 ^ 31 := by
  refine ⟨?_, ?_, ?_⟩
  · rw [round_trip_val_24 _ 0 0 (1 / 2 ^ 24) (by norm_num) (by norm_num) rfl
      (encoded_buffer_holds _ _)]
    have e : encode_raw (2 ^ 31) (1 / 2 ^ 24) = 128 := by
      unfold encode_raw
      have : ((1 : ℚ) / 2 ^ 24 * ((2 ^ 31 : Nat) : ℚ)) = ((128 : Int) : ℚ) := by norm_num
      rw [this, round_intCast]
      decide
    rw [e]
    norm_num
  · rw [abs_le]
    norm_num
  · rintro ⟨buffer, offset, chan, w, hf, hw, hclose⟩
    simp only [ibuffer_get_samp, ibuffer_data.get_format, hf, fetch_24bit.get, Access.map,
      fetch_24bit_call_val, Double.scaled, to_signed_high_bytes] at hw
    simp only [fetch_24bit.new, Double.finite.injEq] at hw
    rw [← hw, abs_le] at hclose
    generalize to_signed 24 (pcm24_byte buffer offset chan 0 + pcm24_byte buffer offset chan 1 * 2 ^ 8
      + pcm24_byte buffer offset chan 2 * 2 ^ 16) = t at hclose
    push_cast at hclose
    have h1 : ((127 : Int) : ℚ) ≤ ((256 * t : Int) : ℚ) := by
      push_cast
      linarith [hclose.1]
    have h2 : ((256 * t : Int) : ℚ) ≤ ((129 : Int) : ℚ) := by
      push_cast
      linarith [hclose.2]
    have h3 := Int.cast_le.mp h1
    have h4 := Int.cast_le.mp h2
    omega

/-! ## The interpolation attribute -/

/-- C7. Whatever the kernel was before, the setter called with one symbol sets the kernel
to Linear for `linear`, CubicHermite for `hermite`, CubicBSpline for `bspline` and
CubicLagrange for `lagrange`; it returns no error and posts no message. -/
theorem C7_set_symbol (defaultValue : InterpType) (x : interp_object) :
    ibuf_interp_attribute_set defaultValue x [t_atom.A_SYM "linear"]
        = { x := { x with interp_type := kInterpLinear }, err := t_max_err.MAX_ERR_NONE, posted := [] }
    ∧ ibuf_interp_attribute_set defaultValue x [t_atom.A_SYM "hermite"]
        = { x := { x with interp_type := kInterpCubicHermite }, err := t_max_err.MAX_ERR_NONE, posted := [] }
    ∧ ibuf_interp_attribute_set defaultValue x [t_atom.A_SYM "bspline"]
        = { x := { x with interp_type := kInterpCubicBSpline }, err := t_max_err.MAX_ERR_NONE, posted := [] }
    ∧ ibuf_interp_attribute_set defaultValue x [t_atom.A_SYM "lagrange"]
        = { x := { x with interp_type := kInterpCubicLagrange }, err := t_max_err.MAX_ERR_NONE, posted := [] } := by
  refine ⟨?_, ?_, ?_, ?_⟩ <;> simp [ibuf_interp_attribute_set]

/-- C8. Whatever the kernel `k` was before, the setter called with a symbol other than
`linear`, `hermite`, `bspline` and `lagrange` posts an error message, which names the
symbol, and leaves the object, and so the kernel, as it was. -/
theorem C8_set_unknown_symbol (defaultValue : InterpType) (x : interp_object) (type : String)
    (h1 : type ≠ "linear") (h2 : type ≠ "hermite") (h3 : type ≠ "bspline")
    (h4 : type ≠ "lagrange") :
    (ibuf_interp_attribute_set defaultValue x [t_atom.A_SYM type]).posted
        = [x.classname ++ ": no interpolation mode " ++ type]
    ∧ (ibuf_interp_attribute_set defaultValue x [t_atom.A_SYM type]).x = x
    ∧ (ibuf_interp_attribute_set defaultValue x [t_atom.A_SYM type]).x.interp_type
        = x.interp_type := by
  simp [ibuf_interp_attribute_set, h1, h2, h3, h4]

/-- C8 on the symbol `cubic`, with the kernel CubicBSpline set before. -/
theorem C8_set_unknown_symbol_witness :
    ("cubic" ≠ "linear" ∧ "cubic" ≠ "hermite" ∧ "cubic" ≠ "bspline" ∧ "cubic" ≠ "lagrange")
    ∧ (ibuf_interp_attribute_set kInterpLinear ⟨kInterpCubicBSpline, "ibufplay~"⟩
          [t_atom.A_SYM "cubic"]).posted = ["ibufplay~" ++ ": no interpolation mode " ++ "cubic"]
    ∧ (ibuf_interp_attribute_set kInterpLinear ⟨kInterpCubicBSpline, "ibufplay~"⟩
          [t_atom.A_SYM "cubic"]).x = ⟨kInterpCubicBSpline, "ibufplay~"⟩
    ∧ (ibuf_interp_attribute_set kInterpLinear ⟨kInterpCubicBSpline, "ibufplay~"⟩
          [t_atom.A_SYM "cubic"]).x.interp_type = kInterpCubicBSpline :=
  ⟨⟨by decide, by decide, by decide, by decide⟩,
    C8_set_unknown_symbol kInterpLinear ⟨kInterpCubicBSpline, "ibufplay~"⟩ "cubic"
      (by decide) (by decide) (by decide) (by decide)⟩

/-- C10. Whatever the kernel was before and whatever default kernel `d` the call site
declares, the setter called with no argument sets the kernel to `d`, returns no error and
posts no message. -/
theorem C10_set_no_argument (d : InterpType) (x : interp_object) :
    ibuf_interp_attribute_set d x []
      = { x := { x with interp_type := d }, err := t_max_err.MAX_ERR_NONE, posted := [] } := by
  rfl

/-- The kernel that the setter stores for a numeric argument. -/
theorem set_numeric_interp_type (d : InterpType) (x : interp_object) (n : Int) :
    (ibuf_interp_attribute_set d x [t_atom.A_LONG n]).x.interp_type
      = (if (if wrap_atom_long (n - 1) < 0 then 0 else wrap_atom_long (n - 1)) > 3 then 3
         else (if wrap_atom_long (n - 1) < 0 then 0 else wrap_atom_long (n - 1))) := by
  rfl

/-- Subtracting 1 stays within `t_atom_long` for every value but the least. -/
theorem wrap_atom_long_pred (n : Int) (hlo : -(2 ^ 63) < n) (hhi : n < 2 ^ 63) :
    wrap_atom_long (n - 1) = n - 1 := by
  unfold wrap_atom_long t_atom_long_bits
  omega

/-- The numeric form of the setter on every value of `t_atom_long` but the least: the
kernel becomes entry `m = min (max n 1) 4` of Linear, CubicHermite, CubicBSpline,
CubicLagrange, counted from 1, with no error and no message. -/
theorem set_numeric_above_least (d : InterpType) (x : interp_object) (n : Int)
    (hlo : -(2 ^ 63) < n) (hhi : n < 2 ^ 63) :
    kernel_order.get? (min (max n 1) 4 - 1).toNat
        = some (ibuf_interp_attribute_set d x [t_atom.A_LONG n]).x.interp_type
    ∧ (ibuf_interp_attribute_set d x [t_atom.A_LONG n]).err = t_max_err.MAX_ERR_NONE
    ∧ (ibuf_interp_attribute_set d x [t_atom.A_LONG n]).posted = [] := by
  refine ⟨?_, rfl, rfl⟩
  rw [set_numeric_interp_type, wrap_atom_long_pred n hlo hhi]
  have hm : min (max n 1) 4 = 1 ∨ min (max n 1) 4 = 2 ∨ min (max n 1) 4 = 3
      ∨ min (max n 1) 4 = 4 := by omega
  rcases hm with hm | hm | hm | hm <;> rw [hm]
  · have e : (if (if n - 1 < 0 then 0 else n - 1) > 3 then 3 else (if n - 1 < 0 then 0 else n - 1))
        = 0 := by
      split_ifs <;> omega
    rw [e]
    rfl
  · have e : (if (if n - 1 < 0 then 0 else n - 1) > 3 then 3 else (if n - 1 < 0 then 0 else n - 1))
        = 1 := by
      split_ifs <;> omega
    rw [e]
    rfl
  · have e : (if (if n - 1 < 0 then 0 else n - 1) > 3 then 3 else (if n - 1 < 0 then 0 else n - 1))
        = 2 := by
      split_ifs <;> omega
    rw [e]
    rfl
  · have e : (if (if n - 1 < 0 then 0 else n - 1) > 3 then 3 else (if n - 1 < 0 then 0 else n - 1))
        = 3 := by
      split_ifs <;> omega
    rw [e]
    rfl

/-- The numeric indices 0, 2 and 5 give Linear, CubicHermite and CubicLagrange. -/
theorem set_numeric_examples (d : InterpType) (x : interp_object) :
    (ibuf_interp_attribute_set d x [t_atom.A_LONG 0]).x.interp_type = kInterpLinear
    ∧ (ibuf_interp_attribute_set d x [t_atom.A_LONG 2]).x.interp_type = kInterpCubicHermite
    ∧ (ibuf_interp_attribute_set d x [t_atom.A_LONG 5]).x.interp_type = kInterpCubicLagrange := by
  refine ⟨?_, ?_, ?_⟩ <;> rw [set_numeric_interp_type] <;> decide

/-- C9 at the least value of `t_atom_long`. The argument `-2 ^ 63` is a value the atom can
hold; the claim asks for entry `min (max n 1) 4 = 1`, Linear; in the setter
`atom_getlong(argv) - 1` leaves the range of the type, the wrapped index `2 ^ 63 - 1` passes
the test `index < 0` and is cut down to 3, and the kernel becomes CubicLagrange. -/
theorem C9_set_numeric_least_value (d : InterpType) (x : interp_object) :
    in_atom_long_range (-(2 ^ 63))
    ∧ kernel_order.get? (min (max (-(2 ^ 63) : Int) 1) 4 - 1).toNat = some kInterpLinear
    ∧ wrap_atom_long (-(2 ^ 63) - 1) = 2 ^ 63 - 1
    ∧ (ibuf_interp_attribute_set d x [t_atom.A_LONG (-(2 ^ 63))]).x.interp_type
        = kInterpCubicLagrange
    ∧ kInterpCubicLagrange ≠ kInterpLinear := by
  refine ⟨by decide, by decide, by decide, ?_, by decide⟩
  rw [set_numeric_interp_type]
  decide

/-- The getter with storage supplied and allocated: one symbol, the name of the stored
kernel; no error; the object as it was. -/
theorem get_supplied (x : interp_object) :
    ibuf_interp_attribute_get x true false
      = { x := x, err := t_max_err.MAX_ERR_NONE
          argv := some [t_atom.A_SYM (kernel_name x.interp_type)] } := by
  unfold ibuf_interp_attribute_get kernel_name
  simp only [if_true, Bool.false_eq_true, if_false]
  split_ifs <;> rfl

/-- C11. For every stored kernel value, the getter called with output storage supplied and
allocated produces exactly one symbol: `linear`, `hermite`, `bspline`, `lagrange` for
Linear, CubicHermite, CubicBSpline, CubicLagrange, and `linear` for any other stored value;
it returns no error and leaves the object, and so the stored kernel, unchanged. -/
theorem C11_get_symbol (x : interp_object) :
    (x.interp_type = kInterpLinear →
      (ibuf_interp_attribute_get x true false).argv = some [t_atom.A_SYM "linear"])
    ∧ (x.interp_type = kInterpCubicHermite →
      (ibuf_interp_attribute_get x true false).argv = some [t_atom.A_SYM "hermite"])
    ∧ (x.interp_type = kInterpCubicBSpline →
      (ibuf_interp_attribute_get x true false).argv = some [t_atom.A_SYM "bspline"])
    ∧ (x.interp_type = kInterpCubicLagrange →
      (ibuf_interp_attribute_get x true false).argv = some [t_atom.A_SYM "lagrange"])
    ∧ (x.interp_type ≠ kInterpLinear → x.interp_type ≠ kInterpCubicHermite →
        x.interp_type ≠ kInterpCubicBSpline → x.interp_type ≠ kInterpCubicLagrange →
      (ibuf_interp_attribute_get x true false).argv = some [t_atom.A_SYM "linear"])
    ∧ (∃ name : String, (ibuf_interp_attribute_get x true false).argv = some [t_atom.A_SYM name])
    ∧ (ibuf_interp_attribute_get x true false).x = x
    ∧ (ibuf_interp_attribute_get x true false).err = t_max_err.MAX_ERR_NONE := by
  refine ⟨?_, ?_, ?_, ?_, ?_, ?_, ?_, ?_⟩
  · intro h
    simp [ibuf_interp_attribute_get, h]
  · intro h
    simp [ibuf_interp_attribute_get, h, kInterpCubicHermite, kInterpLinear]
  · intro h
    simp [ibuf_interp_attribute_get, h, kInterpCubicBSpline, kInterpCubicHermite, kInterpLinear]
  · intro h
    simp [ibuf_interp_attribute_get, h, kInterpCubicLagrange, kInterpCubicBSpline,
      kInterpCubicHermite, kInterpLinear]
  · intro h1 h2 h3 h4
    simp [ibuf_interp_attribute_get, h1, h2, h3, h4]
  · exact ⟨kernel_name x.interp_type, by rw [get_supplied]⟩
  · rw [get_supplied]
  · rw [get_supplied]

/-- C11 on the four kernels and on the stored value 17, which is no enumerator. -/
theorem C11_get_symbol_witness :
    ((⟨kInterpLinear, "ibufplay~"⟩ : interp_object).interp_type = kInterpLinear
      ∧ (ibuf_interp_attribute_get ⟨kInterpLinear, "ibufplay~"⟩ true false).argv
          = some [t_atom.A_SYM "linear"])
    ∧ ((⟨kInterpCubicHermite, "ibufplay~"⟩ : interp_object).interp_type = kInterpCubicHermite
      ∧ (ibuf_interp_attribute_get ⟨kInterpCubicHermite, "ibufplay~"⟩ true false).argv
          = some [t_atom.A_SYM "hermite"])
    ∧ ((⟨kInterpCubicBSpline, "ibufplay~"⟩ : interp_object).interp_type = kInterpCubicBSpline
      ∧ (ibuf_interp_attribute_get ⟨kInterpCubicBSpline, "ibufplay~"⟩ true false).argv
          = some [t_atom.A_SYM "bspline"])
    ∧ ((⟨kInterpCubicLagrange, "ibufplay~"⟩ : interp_object).interp_type = kInterpCubicLagrange
      ∧ (ibuf_interp_attribute_get ⟨kInterpCubicLagrange, "ibufplay~"⟩ true false).argv
          = some [t_atom.A_SYM "lagrange"])
    ∧ (((⟨17, "ibufplay~"⟩ : interp_object).interp_type ≠ kInterpLinear
        ∧ (⟨17, "ibufplay~"⟩ : interp_object).interp_type ≠ kInterpCubicHermite
        ∧ (⟨17, "ibufplay~"⟩ : interp_object).interp_type ≠ kInterpCubicBSpline
        ∧ (⟨17, "ibufplay~"⟩ : interp_object).interp_type ≠ kInterpCubicLagrange)
      ∧ (ibuf_interp_attribute_get ⟨17, "ibufplay~"⟩ true false).argv
          = some [t_atom.A_SYM "linear"]) :=
  ⟨⟨rfl, (C11_get_symbol ⟨kInterpLinear, "ibufplay~"⟩).1 rfl⟩,
   ⟨rfl, (C11_get_symbol ⟨kInterpCubicHermite, "ibufplay~"⟩).2.1 rfl⟩,
   ⟨rfl, (C11_get_symbol ⟨kInterpCubicBSpline, "ibufplay~"⟩).2.2.1 rfl⟩,
   ⟨rfl, (C11_get_symbol ⟨kInterpCubicLagrange, "ibufplay~"⟩).2.2.2.1 rfl⟩,
   ⟨⟨by decide, by decide, by decide, by decide⟩,
    (C11_get_symbol ⟨17, "ibufplay~"⟩).2.2.2.2.1 (by decide) (by decide) (by decide) (by decide)⟩⟩

/-- C20. Set and get of the interpolation mode are inverse to each other on the four
modes: after the setter is called with one of the names `linear`, `hermite`, `bspline`,
`lagrange`, the getter returns that name; and for an object whose kernel is Linear,
CubicHermite, CubicBSpline or CubicLagrange, the setter called with what the getter returns
leaves the object, and so the kernel, as it is. -/
theorem C20_set_get_inverse (d : InterpType) (x : interp_object) (c : String) :
    ((ibuf_interp_attribute_get (ibuf_interp_attribute_set d x [t_atom.A_SYM "linear"]).x
        true false).argv = some [t_atom.A_SYM "linear"]
      ∧ (ibuf_interp_attribute_get (ibuf_interp_attribute_set d x [t_atom.A_SYM "hermite"]).x
        true false).argv = some [t_atom.A_SYM "hermite"]
      ∧ (ibuf_interp_attribute_get (ibuf_interp_attribute_set d x [t_atom.A_SYM "bspline"]).x
        true false).argv = some [t_atom.A_SYM "bspline"]
      ∧ (ibuf_interp_attribute_get (ibuf_interp_attribute_set d x [t_atom.A_SYM "lagrange"]).x
        true false).argv = some [t_atom.A_SYM "lagrange"])
    ∧ ((ibuf_interp_attribute_set d ⟨kInterpLinear, c⟩
          ((ibuf_interp_attribute_get ⟨kInterpLinear, c⟩ true false).argv.getD [])).x
        = ⟨kInterpLinear, c⟩
      ∧ (ibuf_interp_attribute_set d ⟨kInterpCubicHermite, c⟩
          ((ibuf_interp_attribute_get ⟨kInterpCubicHermite, c⟩ true false).argv.getD [])).x
        = ⟨kInterpCubicHermite, c⟩
      ∧ (ibuf_interp_attribute_set d ⟨kInterpCubicBSpline, c⟩
          ((ibuf_interp_attribute_get ⟨kInterpCubicBSpline, c⟩ true false).argv.getD [])).x
        = ⟨kInterpCubicBSpline, c⟩
      ∧ (ibuf_interp_attribute_set d ⟨kInterpCubicLagrange, c⟩
          ((ibuf_interp_attribute_get ⟨kInterpCubicLagrange, c⟩ true false).argv.getD [])).x
        = ⟨kInterpCubicLagrange, c⟩) := by
  refine ⟨⟨?_, ?_, ?_, ?_⟩, ⟨?_, ?_, ?_, ?_⟩⟩
  · rw [get_supplied]
    simp [ibuf_interp_attribute_set, kernel_name]
  · rw [get_supplied]
    simp [ibuf_interp_attribute_set, kernel_name, kInterpCubicHermite, kInterpLinear]
  · rw [get_supplied]
    simp [ibuf_interp_attribute_set, kernel_name, kInterpCubicBSpline, kInterpCubicHermite,
      kInterpLinear]
  · rw [get_supplied]
    simp [ibuf_interp_attribute_set, kernel_name, kInterpCubicLagrange, kInterpCubicBSpline,
      kInterpCubicHermite, kInterpLinear]
  · rw [get_supplied]
    simp [ibuf_interp_attribute_set, kernel_name]
  · rw [get_supplied]
    simp [ibuf_interp_attribute_set, kernel_name, kInterpCubicHermite, kInterpLinear]
  · rw [get_supplied]
    simp [ibuf_interp_attribute_set, kernel_name, kInterpCubicBSpline, kInterpCubicHermite,
      kInterpLinear]
  · rw [get_supplied]
    simp [ibuf_interp_attribute_set, kernel_name, kInterpCubicLagrange, kInterpCubicBSpline,
      kInterpCubicHermite, kInterpLinear]

/-! ## Addresses -/

/-- The interleaved index of an in-range frame and channel lies in `[0, L * C)`. -/
theorem interleaved_index_range (L C offset chan : Int) (hc0 : 0 ≤ chan) (hc1 : chan < C)
    (ho0 : 0 ≤ offset) (ho1 : offset < L) :
    0 ≤ offset * C + chan ∧ offset * C + chan < L * C := by
  have hC : 0 < C := lt_of_le_of_lt hc0 hc1
  constructor
  · have := mul_nonneg ho0 hC.le
    omega
  · have h1 : (offset + 1) * C ≤ L * C := mul_le_mul_of_nonneg_right (by omega) hC.le
    have h2 : (offset + 1) * C = offset * C + C := by ring
    omega

/-- The interleaved index determines the frame and the channel. -/
theorem interleaved_index_injective (C offset chan offset' chan' : Int)
    (hc0 : 0 ≤ chan) (hc1 : chan < C) (hc0' : 0 ≤ chan') (hc1' : chan' < C)
    (h : offset * C + chan = offset' * C + chan') : offset = offset' ∧ chan = chan' := by
  have hC : 0 < C := lt_of_le_of_lt hc0 hc1
  have e1 : (offset * C + chan) / C = offset := by
    rw [add_comm, Int.add_mul_ediv_right _ _ hC.ne', Int.ediv_eq_zero_of_lt hc0 hc1, zero_add]
  have e2 : (offset' * C + chan') / C = offset' := by
    rw [add_comm, Int.add_mul_ediv_right _ _ hC.ne', Int.ediv_eq_zero_of_lt hc0' hc1', zero_add]
  have ho : offset = offset' := by
    rw [← e1, ← e2, h]
  refine ⟨ho, ?_⟩
  rw [ho] at h
  omega

/-- C17. The value decoded from a packed 24-bit buffer depends on the three bytes of the
sample only: two buffers of format `PCM_INT_24` with the same channel count whose storages
agree on the bytes at indices `3 * (offset * C + chan) + 0, 1, 2`, and differ anywhere else,
decode frame `offset`, channel `chan` to the same value. -/
theorem C17_pcm24_three_bytes_only (b1 b2 : ibuffer_data) (offset chan : Int)
    (hf1 : b1.format = PCMFormat.PCM_INT_24) (hf2 : b2.format = PCMFormat.PCM_INT_24)
    (hc : b1.num_chans = b2.num_chans)
    (h0 : load_byte b1.samples (3 * (offset * b1.num_chans + chan) + 0)
      = load_byte b2.samples (3 * (offset * b1.num_chans + chan) + 0))
    (h1 : load_byte b1.samples (3 * (offset * b1.num_chans + chan) + 1)
      = load_byte b2.samples (3 * (offset * b1.num_chans + chan) + 1))
    (h2 : load_byte b1.samples (3 * (offset * b1.num_chans + chan) + 2)
      = load_byte b2.samples (3 * (offset * b1.num_chans + chan) + 2)) :
    (ibuffer_get_samp b1 offset chan).val = (ibuffer_get_samp b2 offset chan).val := by
  simp only [ibuffer_get_samp, ibuffer_data.get_format, hf1, hf2, fetch_24bit.get, Access.map,
    fetch_24bit_call_val]
  simp only [fetch_24bit.new, pcm24_byte, ← hc, h0, h1, h2]

/-- C17 on channel 1 of two one-frame buffers that agree on its three bytes `00 00 80` and
differ in the byte before them (`0x40` and `0xCC`), which the 4-byte load also reads. -/
theorem C17_pcm24_three_bytes_only_witness :
    (example_pcm24.format = PCMFormat.PCM_INT_24
      ∧ example_pcm24_other.format = PCMFormat.PCM_INT_24
      ∧ example_pcm24.num_chans = example_pcm24_other.num_chans
      ∧ load_byte example_pcm24.samples (3 * (0 * example_pcm24.num_chans + 1) - 1)
          ≠ load_byte example_pcm24_other.samples (3 * (0 * example_pcm24.num_chans + 1) - 1))
    ∧ (ibuffer_get_samp example_pcm24 0 1).val = (ibuffer_get_samp example_pcm24_other 0 1).val :=
  ⟨⟨rfl, rfl, rfl, by decide⟩,
    C17_pcm24_three_bytes_only example_pcm24 example_pcm24_other 0 1 rfl rfl rfl
      (by decide) (by decide) (by decide)⟩

/-- The 4-byte load of the 24-bit reader stays inside the storage for every in-range frame
and channel but the first sample (frame 0, channel 0). -/
theorem pcm24_reads_in_extent (buffer : ibuffer_data) (offset chan : Int)
    (hf : buffer.format = PCMFormat.PCM_INT_24)
    (hc0 : 0 ≤ chan) (hc1 : chan < buffer.num_chans)
    (ho0 : 0 ≤ offset) (ho1 : offset < buffer.length) (hfirst : offset ≠ 0 ∨ chan ≠ 0) :
    ∀ a ∈ (ibuffer_get_samp buffer offset chan).reads, in_pcm24_extent buffer a := by
  have hr := interleaved_index_range buffer.length buffer.num_chans offset chan hc0 hc1 ho0 ho1
  have hpos : 1 ≤ offset * buffer.num_chans + chan := by
    rcases hfirst with h | h
    · have h1 : 1 * buffer.num_chans ≤ offset * buffer.num_chans :=
        mul_le_mul_of_nonneg_right (by omega) (by omega)
      omega
    · have := mul_nonneg ho0 (show (0 : Int) ≤ buffer.num_chans by omega)
      omega
  rw [(ibuffer_get_samp_reads buffer offset chan).2.2.1 hf]
  intro a ha
  simp only [load_addrs, List.mem_cons, List.mem_singleton, List.not_mem_nil, or_false] at ha
  have e : 3 * buffer.length * buffer.num_chans = 3 * (buffer.length * buffer.num_chans) := by
    ring
  unfold in_pcm24_extent
  rw [e]
  omega

/-- C18 at the first sample. For frame 0, channel 0 of the one-frame, two-channel 24-bit
buffer `example_pcm24`, whose storage has the byte indices 0 to 5, the 4-byte load of the
reader touches the indices -1, 0, 1, 2: the first lies before the storage, and with bounded
storage indexing the access has no value. -/
theorem C18_pcm24_first_sample_reads_before_storage :
    example_pcm24.format = PCMFormat.PCM_INT_24
    ∧ (1 ≤ example_pcm24.length ∧ 1 ≤ example_pcm24.num_chans)
    ∧ ((0 : Int) ≤ 0 ∧ (0 : Int) < example_pcm24.num_chans ∧ (0 : Int) < example_pcm24.length)
    ∧ (ibuffer_get_samp example_pcm24 0 0).reads = [-1, 0, 1, 2]
    ∧ ¬ in_pcm24_extent example_pcm24 (-1)
    ∧ (ibuffer_get_samp example_pcm24 0 0).checked
        (3 * example_pcm24.length * example_pcm24.num_chans) = none := by
  refine ⟨rfl, by decide, by decide, ?_, by decide, ?_⟩
  · rw [(ibuffer_get_samp_reads example_pcm24 0 0).2.2.1 rfl]
    decide
  · unfold Access.checked
    rw [(ibuffer_get_samp_reads example_pcm24 0 0).2.2.1 rfl]
    decide

/-- The first sample of every 24-bit buffer: the load of frame 0, channel 0 touches the
index -1. -/
theorem pcm24_first_sample_reads (buffer : ibuffer_data)
    (hf : buffer.format = PCMFormat.PCM_INT_24) :
    (ibuffer_get_samp buffer 0 0).reads = [-1, 0, 1, 2] := by
  rw [(ibuffer_get_samp_reads buffer 0 0).2.2.1 hf]
  simp [load_addrs]

/-- C19. For the float, 16-bit and 32-bit readers the loads of frame `offset`, channel
`chan` are those of the element with index `offset * C + chan`; for an in-range frame and
channel this index lies in `[0, L * C)`, and two in-range pairs with the same index are the
same pair. -/
theorem C19_interleaved_addressing (buffer : ibuffer_data) (offset chan offset' chan' : Int)
    (hf : buffer.format = PCMFormat.PCM_FLOAT ∨ buffer.format = PCMFormat.PCM_INT_16
      ∨ buffer.format = PCMFormat.PCM_INT_32)
    (hc0 : 0 ≤ chan) (hc1 : chan < buffer.num_chans)
    (ho0 : 0 ≤ offset) (ho1 : offset < buffer.length)
    (hc0' : 0 ≤ chan') (hc1' : chan' < buffer.num_chans)
    (ho0' : 0 ≤ offset') (ho1' : offset' < buffer.length) :
    (∃ size : Nat, 0 < size ∧ (ibuffer_get_samp buffer offset chan).reads
        = load_addrs size ((size : Int) * (offset * buffer.num_chans + chan)))
    ∧ (0 ≤ offset * buffer.num_chans + chan
      ∧ offset * buffer.num_chans + chan < buffer.length * buffer.num_chans)
    ∧ (0 ≤ offset' * buffer.num_chans + chan'
      ∧ offset' * buffer.num_chans + chan' < buffer.length * buffer.num_chans)
    ∧ (offset * buffer.num_chans + chan = offset' * buffer.num_chans + chan'
        → offset = offset' ∧ chan = chan') := by
  refine ⟨?_, interleaved_index_range _ _ _ _ hc0 hc1 ho0 ho1,
    interleaved_index_range _ _ _ _ hc0' hc1' ho0' ho1',
    interleaved_index_injective _ _ _ _ _ hc0 hc1 hc0' hc1'⟩
  rcases hf with hf | hf | hf
  · exact ⟨4, by norm_num, (ibuffer_get_samp_reads buffer offset chan).1 hf⟩
  · exact ⟨2, by norm_num, (ibuffer_get_samp_reads buffer offset chan).2.1 hf⟩
  · exact ⟨4, by norm_num, (ibuffer_get_samp_reads buffer offset chan).2.2.2 hf⟩

/-- C19 on the two-frame, two-channel 16-bit buffer, at the pairs (frame 1, channel 0)
and (frame 0, channel 1). -/
theorem C19_interleaved_addressing_witness :
    ((example_pcm16.format = PCMFormat.PCM_FLOAT ∨ example_pcm16.format = PCMFormat.PCM_INT_16
        ∨ example_pcm16.format = PCMFormat.PCM_INT_32)
      ∧ (0 : Int) ≤ 0 ∧ (0 : Int) < example_pcm16.num_chans
      ∧ (0 : Int) ≤ 1 ∧ (1 : Int) < example_pcm16.length
      ∧ (0 : Int) ≤ 1 ∧ (1 : Int) < example_pcm16.num_chans
      ∧ (0 : Int) ≤ 0 ∧ (0 : Int) < example_pcm16.length)
    ∧ ((∃ size : Nat, 0 < size ∧ (ibuffer_get_samp example_pcm16 1 0).reads
        = load_addrs size ((size : Int) * (1 * example_pcm16.num_chans + 0)))
      ∧ (0 ≤ 1 * example_pcm16.num_chans + 0
        ∧ 1 * example_pcm16.num_chans + 0 < example_pcm16.length * example_pcm16.num_chans)
      ∧ (0 ≤ 0 * example_pcm16.num_chans + 1
        ∧ 0 * example_pcm16.num_chans + 1 < example_pcm16.length * example_pcm16.num_chans)
      ∧ (1 * example_pcm16.num_chans + 0 = 0 * example_pcm16.num_chans + 1
          → (1 : Int) = 0 ∧ (0 : Int) = 1)) :=
  ⟨⟨Or.inr (Or.inl rfl), by decide, by decide, by decide, by decide, by decide, by decide,
      by decide, by decide⟩,
    C19_interleaved_addressing example_pcm16 1 0 0 1 (Or.inr (Or.inl rfl)) (by decide)
      (by decide) (by decide) (by decide) (by decide) (by decide) (by decide) (by decide)⟩

/-! ## Runs of samples and interpolated reads -/

/-- The value of a sample of a float buffer: the stored float, converted. -/
theorem float_get_val (buffer : ibuffer_data) (offset chan : Int)
    (hf : buffer.format = PCMFormat.PCM_FLOAT) :
    (ibuffer_get_samp buffer offset chan).val
      = float_to_double (stored_element 4 buffer.samples (offset * buffer.num_chans + chan)) := by
  simp only [ibuffer_get_samp, ibuffer_data.get_format, hf, fetch.get, fetch.call, fetch.new,
    load, Access.map, stored_element, SampleType.sizeof, SampleType.to_double,
    ibuffer_data.get_samples, ibuffer_data.get_num_chans, ne_eq, not_true_eq_false, if_false]
  congr 2
  push_cast
  ring

/-- Element `k` of a run of samples. -/
theorem ibuffer_get_samps_get (buffer : ibuffer_data) (offset : Int) (n_samps : Nat)
    (chan : Int) (reverse : Bool) (k : Nat) (hk : k < n_samps) :
    (ibuffer_get_samps buffer offset n_samps chan reverse).get? k
      = some (ibuffer_get_samp buffer
          (if reverse then offset - (k : Int) else offset + (k : Int)) chan).val := by
  simp only [ibuffer_get_samps, List.get?_eq_getElem?, List.getElem?_map,
    List.getElem?_range hk, Option.map_some']

/-- C13. For every buffer, channel, offset and count, and every `k < count`, element `k` of
the reverse fetch from `offset` is element `count - 1 - k` of the forward fetch from
`offset - count + 1`: it is the sample of frame `offset - k`. -/
theorem C13_reverse_fetch_symmetry (buffer : ibuffer_data) (offset chan : Int) (count k : Nat)
    (hk : k < count) :
    (ibuffer_get_samps buffer offset count chan true).get? k
        = (ibuffer_get_samps buffer (offset - (count : Int) + 1) count chan false).get?
            (count - 1 - k)
    ∧ (ibuffer_get_samps buffer offset count chan true).get? k
        = some (ibuffer_get_samp buffer (offset - (k : Int)) chan).val := by
  rw [ibuffer_get_samps_get _ _ _ _ _ _ hk, ibuffer_get_samps_get _ _ _ _ _ _ (by omega)]
  simp only [if_true, Bool.false_eq_true, if_false, and_true]
  congr 3
  omega

/-- C13 on the spec's example buffer: element 0 of the reverse fetch of 3 samples from
offset 4 is element 2 of the forward fetch from offset 2. -/
theorem C13_reverse_fetch_symmetry_witness :
    (0 < 3)
    ∧ ((ibuffer_get_samps example_buffer 4 3 0 true).get? 0
        = (ibuffer_get_samps example_buffer (4 - ((3 : Nat) : Int) + 1) 3 0 false).get? (3 - 1 - 0)
      ∧ (ibuffer_get_samps example_buffer 4 3 0 true).get? 0
        = some (ibuffer_get_samp example_buffer (4 - ((0 : Nat) : Int)) 0).val) :=
  ⟨by decide, C13_reverse_fetch_symmetry example_buffer 4 0 3 0 (by decide)⟩

/-- The float words of the spec's example buffer at frames 2, 3 and 4 decode to 0.5, 0.75
and 1. -/
theorem example_buffer_values :
    (ibuffer_get_samp example_buffer 2 0).val = Double.finite (1 / 2)
    ∧ (ibuffer_get_samp example_buffer 3 0).val = Double.finite (3 / 4)
    ∧ (ibuffer_get_samp example_buffer 4 0).val = Double.finite 1 := by
  have h2 : (ibuffer_get_samp example_buffer 2 0).val = float_to_double 0x3F000000 := by
    rw [float_get_val _ _ _ rfl]
    exact congrArg float_to_double (by decide)
  have h3 : (ibuffer_get_samp example_buffer 3 0).val = float_to_double 0x3F400000 := by
    rw [float_get_val _ _ _ rfl]
    exact congrArg float_to_double (by decide)
  have h4 : (ibuffer_get_samp example_buffer 4 0).val = float_to_double 0x3F800000 := by
    rw [float_get_val _ _ _ rfl]
    exact congrArg float_to_double (by decide)
  rw [h2, h3, h4]
  refine ⟨?_, ?_, ?_⟩ <;> norm_num [float_to_double, float_magnitude]

/-- The spec's example of a reverse fetch: 3 samples from offset 4 are `[1.0, 0.75, 0.5]`. -/
theorem ibuffer_get_samps_example :
    ibuffer_get_samps example_buffer 4 3 0 true
      = [Double.finite 1, Double.finite (3 / 4), Double.finite (1 / 2)] := by
  have e : ibuffer_get_samps example_buffer 4 3 0 true
      = [(ibuffer_get_samp example_buffer 4 0).val, (ibuffer_get_samp example_buffer 3 0).val,
         (ibuffer_get_samp example_buffer 2 0).val] := by
    simp [ibuffer_get_samps, List.range_succ]
  rw [e, example_buffer_values.1, example_buffer_values.2.1, example_buffer_values.2.2]

/-- C14. For every buffer, channel and multiplier and every integer position `i0` whose
two neighbours `s(i0)` and `s(i0 + 1)` are sample values, `ibuffer_read` with the Linear
kernel and the one position `i0` writes `output[0] = ibuffer_get_samp(buffer, i0, chan) *
multiplier`. -/
theorem C14_linear_at_integer_position
    (cubic : InterpType → (Int → Option ℚ) → Int → ℚ → Option ℚ) (buffer : ibuffer_data)
    (chan : Int) (mul : ℚ) (i0 : Int) (s0 s1 : ℚ)
    (h0 : (ibuffer_get_samp buffer i0 chan).val.to_rat = some s0)
    (h1 : (ibuffer_get_samp buffer (i0 + 1) chan).val.to_rat = some s1) :
    ibuffer_read cubic buffer [(i0 : ℚ)] chan mul kInterpLinear = [some (s0 * mul)] := by
  simp only [ibuffer_read, List.map_cons, List.map_nil, if_true, Int.floor_intCast, sample_value,
    h0, h1, interp_linear, sub_self, sub_zero, mul_one, mul_zero, add_zero]
  rw [mul_comm]

/-- C14 on the spec's example buffer at position 2 with the multiplier 3: the output is
`0.5 * 3`. -/
theorem C14_linear_at_integer_position_witness :
    ((ibuffer_get_samp example_buffer 2 0).val.to_rat = some (1 / 2)
      ∧ (ibuffer_get_samp example_buffer (2 + 1) 0).val.to_rat = some (3 / 4))
    ∧ ibuffer_read (fun _ _ _ _ => none) example_buffer [((2 : Int) : ℚ)] 0 3 kInterpLinear
        = [some (1 / 2 * 3)] :=
  ⟨⟨by rw [example_buffer_values.1]; rfl, by
      have e : (2 : Int) + 1 = 3 := by norm_num
      rw [e, example_buffer_values.2.1]
      rfl⟩,
    C14_linear_at_integer_position (fun _ _ _ _ => none) example_buffer 0 3 2 (1 / 2) (3 / 4)
      (by rw [example_buffer_values.1]; rfl)
      (by
        have e : (2 : Int) + 1 = 3 := by norm_num
        rw [e, example_buffer_values.2.1]
        rfl)⟩

/-- The spec's example of an interpolated read: position 2.5 with the Linear kernel and
the multiplier 1 gives 0.625. -/
theorem ibuffer_read_example (cubic : InterpType → (Int → Option ℚ) → Int → ℚ → Option ℚ) :
    ibuffer_read cubic example_buffer [5 / 2] 0 1 kInterpLinear = [some (5 / 8)] := by
  have hfl : ⌊(5 / 2 : ℚ)⌋ = 2 := by
    rw [Int.floor_eq_iff]
    norm_num
  have e : (2 : Int) + 1 = 3 := by norm_num
  simp only [ibuffer_read, List.map_cons, List.map_nil, if_true, sample_value, hfl, e,
    example_buffer_values.1, example_buffer_values.2.1, Double.to_rat, interp_linear]
  norm_num

/-! ## `nextafterf` -/

/-- Masking with `0x7fffffff` keeps the 31 bits below the sign. -/
theorem land_low31 (w : Nat) : w &&& 0x7fffffff = w % 2 ^ 31 := by
  have e : (0x7fffffff : Nat) = 2 ^ 31 - 1 := by norm_num
  rw [e, Nat.and_pow_two_sub_one_eq_mod]

/-- Masking a 32-bit word with `0x80000000` keeps the sign bit. -/
theorem land_sign (w : Nat) (hw : w < 2 ^ 32) :
    w &&& 0x80000000 = if w < 2 ^ 31 then 0 else 0x80000000 := by
  have e : (0x80000000 : Nat) = 2 ^ 31 := by norm_num
  rw [e, Nat.and_two_pow]
  by_cases h : w < 2 ^ 31
  · rw [if_pos h, Nat.testBit_lt_two_pow h]
    rfl
  · rw [if_neg h]
    have : w.testBit 31 = true := by
      rw [Nat.testBit_to_div_mod]
      simp only [decide_eq_true_eq]
      omega
    rw [this]
    rfl

theorem float_magnitude_pos (mant e : Nat) (hm : 0 < mant) : 0 < float_magnitude mant e := by
  have hq : (0 : ℚ) < (mant : ℚ) := by exact_mod_cast hm
  unfold float_magnitude
  split_ifs
  · positivity
  · positivity

/-- The words of the two zeros decode to `+0.0` and `-0.0`. -/
theorem float_to_double_zero :
    float_to_double 0 = Double.finite 0 ∧ float_to_double 0x80000000 = Double.negZero := by
  constructor <;> norm_num [float_to_double]

/-- A float that is neither a zero nor a NaN is not equal to a zero. -/
theorem float_eq_zero_false (x y : Nat) (hx : x = 0 ∨ x = 0x80000000)
    (hny : ¬ is_nan y) (hzy : ¬ is_zero y) : float_eq x y = false := by
  unfold is_nan at hny
  unfold is_zero at hzy
  have key : ∀ d : Double, d = Double.finite 0 ∨ d = Double.negZero →
      Double.eq d (float_to_double y) = false := by
    intro d hd
    unfold float_to_double
    simp only []
    split_ifs with h1 h2 h3 h4 h5 h6
    · rcases hd with hd | hd <;> rw [hd] <;> rfl
    · exfalso
      omega
    · exfalso
      omega
    · exfalso
      omega
    · have hpos := float_magnitude_pos (y % 2 ^ 23) 1 (by omega)
      rcases hd with hd | hd <;> rw [hd] <;> simp only [Double.eq, decide_eq_false_iff_not]
      · intro h
        linarith
      · intro h
        linarith
    · have hpos := float_magnitude_pos (y % 2 ^ 23) 1 (by omega)
      rcases hd with hd | hd <;> rw [hd] <;> simp only [Double.eq, decide_eq_false_iff_not]
      · intro h
        linarith
      · intro h
        linarith
    · have hpos := float_magnitude_pos (2 ^ 23 + y % 2 ^ 23) (y / 2 ^ 23 % 256) (by positivity)
      rcases hd with hd | hd <;> rw [hd] <;> simp only [Double.eq, decide_eq_false_iff_not]
      · intro h
        linarith
      · intro h
        linarith
    · have hpos := float_magnitude_pos (2 ^ 23 + y % 2 ^ 23) (y / 2 ^ 23 % 256) (by positivity)
      rcases hd with hd | hd <;> rw [hd] <;> simp only [Double.eq, decide_eq_false_iff_not]
      · intro h
        linarith
      · intro h
        linarith
  unfold float_eq
  rcases hx with hx | hx <;> rw [hx]
  · rw [float_to_double_zero.1]
    exact key _ (Or.inl rfl)
  · rw [float_to_double_zero.2]
    exact key _ (Or.inr rfl)

/-- A magnitude below half of the least subnormal number rounds to the word 0. -/
theorem float_round_magnitude_tiny (a : ℚ) (h0 : 0 ≤ a) (h1 : a < 1 / 2 ^ 150) :
    float_round_magnitude a = 0 := by
  have hq0 : 0 ≤ a * 2 ^ 149 := by positivity
  have hq1 : a * 2 ^ 149 < 1 / 2 := by
    have : a * 2 ^ 149 < 1 / 2 ^ 150 * 2 ^ 149 := by
      apply mul_lt_mul_of_pos_right h1
      positivity
    have e : (1 : ℚ) / 2 ^ 150 * 2 ^ 149 = 1 / 2 := by norm_num
    linarith
  have hfl : ⌊a * 2 ^ 149⌋ = 0 := by
    rw [Int.floor_eq_iff]
    constructor
    · simpa using hq0
    · have : a * 2 ^ 149 < 1 := by linarith
      simpa using this
  have hsmall : a < 1 / 2 ^ 126 := by
    have : (1 : ℚ) / 2 ^ 150 < 1 / 2 ^ 126 := by norm_num
    linarith
  unfold float_round_magnitude round_half_even
  rw [if_pos hsmall, hfl]
  rw [if_pos (by simpa using hq1)]
  rfl

/-- The square of the least subnormal float, of either sign, is `+0.0`. -/
theorem float_mul_min_subnormal :
    float_mul 1 1 = 0 ∧ float_mul 0x80000001 0x80000001 = 0 := by
  have h1 : float_to_double 1 = Double.finite (1 / 2 ^ 149) := by
    norm_num [float_to_double, float_magnitude]
  have h2 : float_to_double 0x80000001 = Double.finite (-(1 / 2 ^ 149)) := by
    norm_num [float_to_double, float_magnitude]
  constructor
  · unfold float_mul
    rw [h1]
    simp only [Double.number]
    rw [float_round_magnitude_tiny _ (abs_nonneg _) (by rw [abs_of_pos] <;> norm_num)]
    decide
  · unfold float_mul
    rw [h2]
    simp only [Double.number]
    rw [float_round_magnitude_tiny _ (abs_nonneg _) (by rw [abs_of_pos] <;> norm_num)]
    decide

/-- The float `+0.0` is not equal to the least subnormal float of either sign. -/
theorem float_eq_zero_min_subnormal :
    float_eq 0 1 = false ∧ float_eq 0 0x80000001 = false :=
  ⟨float_eq_zero_false 0 1 (Or.inl rfl) (by decide) (by decide),
   float_eq_zero_false 0 0x80000001 (Or.inl rfl) (by decide) (by decide)⟩

/-- C15. For floats `x` and `y`, neither a NaN, that compare equal (`+0.0` and `-0.0`
included), `nextafterf(x, y)` returns `y`, bit for bit. -/
theorem C15_equal_returns_y (x y : Nat) (hnx : ¬ is_nan x) (hny : ¬ is_nan y)
    (he : float_eq x y = true) : nextafterf x y = y := by
  unfold is_nan at hnx hny
  unfold nextafterf
  simp only [land_low31]
  rw [if_neg (by omega), if_pos he]

/-- C15 on the two zeros in both orders: `nextafterf(+0, -0)` is the word of `-0.0` and
`nextafterf(-0, +0)` is the word of `+0.0`. -/
theorem C15_equal_returns_y_witness :
    ((¬ is_nan 0 ∧ ¬ is_nan 0x80000000 ∧ float_eq 0 0x80000000 = true)
      ∧ nextafterf 0 0x80000000 = 0x80000000)
    ∧ ((¬ is_nan 0x80000000 ∧ ¬ is_nan 0 ∧ float_eq 0x80000000 0 = true)
      ∧ nextafterf 0x80000000 0 = 0) := by
  have e1 : float_eq 0 0x80000000 = true := by
    unfold float_eq
    rw [float_to_double_zero.1, float_to_double_zero.2]
    rfl
  have e2 : float_eq 0x80000000 0 = true := by
    unfold float_eq
    rw [float_to_double_zero.1, float_to_double_zero.2]
    rfl
  exact ⟨⟨⟨by decide, by decide, e1⟩, C15_equal_returns_y 0 0x80000000 (by decide) (by decide) e1⟩,
    ⟨⟨by decide, by decide, e2⟩, C15_equal_returns_y 0x80000000 0 (by decide) (by decide) e2⟩⟩

/-- C16. For `x` equal to `+0.0` or `-0.0` and every float `y` that is neither a NaN nor a
zero, `nextafterf(x, y)` returns the float whose word is `(sign bit of y) | 1`: the least
subnormal number with the sign of `y`. -/
theorem C16_zero_returns_min_subnormal (x y : Nat) (hx : x = 0 ∨ x = 0x80000000)
    (hy : is_float_word y) (hny : ¬ is_nan y) (hzy : ¬ is_zero y) :
    nextafterf x y = (y &&& 0x80000000) ||| 1
    ∧ nextafterf x y = (if y < 2 ^ 31 then 1 else 0x80000001) := by
  have hne := float_eq_zero_false x y hx hny hzy
  unfold is_nan at hny
  unfold is_float_word at hy
  have hix : x % 2 ^ 31 = 0 := by
    rcases hx with hx | hx <;> rw [hx] <;> norm_num
  have main : nextafterf x y = (y &&& 0x80000000) ||| 1 := by
    unfold nextafterf
    simp only [land_low31]
    rw [if_neg (by omega), hne]
    simp only [Bool.false_eq_true, if_false, hix, if_true]
    rw [land_sign y hy]
    by_cases hs : y < 2 ^ 31
    · rw [if_pos hs]
      have e : (0 ||| 1 : Nat) = 1 := by decide
      rw [e, float_mul_min_subnormal.1, float_eq_zero_min_subnormal.1]
      rfl
    · rw [if_neg hs]
      have e : (0x80000000 ||| 1 : Nat) = 0x80000001 := by decide
      rw [e, float_mul_min_subnormal.2, float_eq_zero_min_subnormal.2]
      rfl
  refine ⟨main, ?_⟩
  rw [main, land_sign y hy]
  by_cases hs : y < 2 ^ 31
  · rw [if_pos hs, if_pos hs]
    decide
  · rw [if_neg hs, if_neg hs]
    decide

/-- C16 on `x = -0.0` and `y = -1.0`: the result is the word `0x80000001`. -/
theorem C16_zero_returns_min_subnormal_witness :
    (((0x80000000 : Nat) = 0 ∨ (0x80000000 : Nat) = 0x80000000) ∧ is_float_word 0xBF800000
      ∧ ¬ is_nan 0xBF800000 ∧ ¬ is_zero 0xBF800000)
    ∧ (nextafterf 0x80000000 0xBF800000 = (0xBF800000 &&& 0x80000000) ||| 1
      ∧ nextafterf 0x80000000 0xBF800000 = (if 0xBF800000 < 2 ^ 31 then 1 else 0x80000001)) :=
  ⟨⟨Or.inr rfl, by decide, by decide, by decide⟩,
    C16_zero_returns_min_subnormal 0x80000000 0xBF800000 (Or.inr rfl) (by decide) (by decide)
      (by decide)⟩

/-- The floats `1.0`, `-1.0` and the two neighbours of `1.0`, by their words. -/
theorem float_values_near_one :
    float_to_double 0x3F800000 = Double.finite 1
    ∧ float_to_double 0xBF800000 = Double.finite (-1)
    ∧ float_to_double 0x3F800001 = Double.finite (1 + 1 / 2 ^ 23)
    ∧ float_to_double 0x3F7FFFFF = Double.finite (1 - 1 / 2 ^ 24) := by
  refine ⟨?_, ?_, ?_, ?_⟩ <;> norm_num [float_to_double, float_magnitude]

/-- C12 at `x = 1.0`, `y = -1.0`. Neither is a NaN, they are not equal, `x` is not a zero
and `y < x`, so the float asked for is the largest one below `1.0`, `1 - 2 ^ (-24)` (word
`0x3F7FFFFF`).  The words `hx`, `hy` are unsigned: the test `hx >= 0` always holds, and in
the branch for positive `x` the test `hx > hy` fails because the sign bit makes `hy` the
larger word; the code adds one unit and returns `1 + 2 ^ (-23)` (word `0x3F800001`), a
float above `x`, away from `y`. -/
theorem C12_positive_x_negative_y :
    (is_float_word 0x3F800000 ∧ is_float_word 0xBF800000 ∧ ¬ is_nan 0x3F800000
      ∧ ¬ is_nan 0xBF800000 ∧ ¬ is_zero 0x3F800000 ∧ float_eq 0x3F800000 0xBF800000 = false)
    ∧ (float_to_double 0x3F800000 = Double.finite 1
      ∧ float_to_double 0xBF800000 = Double.finite (-1) ∧ (-1 : ℚ) < 1)
    ∧ nextafterf 0x3F800000 0xBF800000 = 0x3F800001
    ∧ (float_to_double 0x3F800001 = Double.finite (1 + 1 / 2 ^ 23) ∧ (1 : ℚ) < 1 + 1 / 2 ^ 23)
    ∧ (float_to_double 0x3F7FFFFF = Double.finite (1 - 1 / 2 ^ 24) ∧ (1 : ℚ) - 1 / 2 ^ 24 < 1) := by
  have hne : float_eq 0x3F800000 0xBF800000 = false := by
    unfold float_eq
    rw [float_values_near_one.1, float_values_near_one.2.1]
    simp only [Double.eq, decide_eq_false_iff_not]
    norm_num
  refine ⟨⟨by decide, by decide, by decide, by decide, by decide, hne⟩,
    ⟨float_values_near_one.1, float_values_near_one.2.1, by norm_num⟩, ?_,
    ⟨float_values_near_one.2.2.1, by norm_num⟩, ⟨float_values_near_one.2.2.2, by norm_num⟩⟩
  unfold nextafterf
  simp only [land_low31]
  rw [if_neg (by decide), hne]
  simp only [Bool.false_eq_true, if_false]
  rw [if_neg (by decide)]
  decide

/-- Masking with `0x7f800000` keeps the exponent field. -/
theorem land_exponent (w : Nat) : w &&& 0x7f800000 = 2 ^ 23 * (w / 2 ^ 23 % 2 ^ 8) := by
  have hM : (0x7f800000 : Nat) = 2 ^ 23 * (2 ^ 8 - 1) := by norm_num
  rw [hM, ← Nat.shiftRight_eq_div_pow]
  apply Nat.eq_of_testBit_eq
  intro i
  simp only [Nat.testBit_land, Nat.testBit_mul_pow_two, Nat.testBit_two_pow_sub_one,
    Nat.testBit_mod_two_pow, Nat.testBit_shiftRight]
  by_cases h : 23 ≤ i
  · have : 23 + (i - 23) = i := by omega
    simp [h, this, Bool.and_comm]
  · simp [h]

/-- What `nextafterf` does with the words when `x` and `y` are no NaNs, do not compare
equal and `x` is no zero: the unsigned comparison of the words alone chooses the direction.
When the word of `x` is the greater one the result is the word `x - 1`; otherwise it is the
word `x + 1`, or the sum `x + x` when `x + 1` has the exponent field of an infinity. -/
theorem nextafterf_word_step (x y : Nat) (hx : is_float_word x) (hnx : ¬ is_nan x)
    (hny : ¬ is_nan y) (hzx : ¬ is_zero x) (hne : float_eq x y = false) :
    (y < x → nextafterf x y = x - 1)
    ∧ (¬ y < x → (x + 1) / 2 ^ 23 % 2 ^ 8 ≠ 255 → nextafterf x y = x + 1)
    ∧ (¬ y < x → (x + 1) / 2 ^ 23 % 2 ^ 8 = 255 → nextafterf x y = float_add x x) := by
  unfold is_nan at hnx hny
  unfold is_zero at hzx
  unfold is_float_word at hx
  have hstart : nextafterf x y =
      (if (if x > y then wrap_uint32 ((x : Int) - 1) else wrap_uint32 ((x : Int) + 1))
            &&& 0x7f800000 ≥ 0x7f800000 then float_add x x
       else (if x > y then wrap_uint32 ((x : Int) - 1) else wrap_uint32 ((x : Int) + 1))) := by
    unfold nextafterf
    simp only [land_low31]
    rw [if_neg (by omega), hne]
    simp only [Bool.false_eq_true, if_false]
    rw [if_neg hzx]
    simp only [ge_iff_le, Nat.zero_le, if_true, ite_self]
  have hdec : wrap_uint32 ((x : Int) - 1) = x - 1 := by
    unfold wrap_uint32
    omega
  have hinc : wrap_uint32 ((x : Int) + 1) = x + 1 := by
    unfold wrap_uint32
    omega
  rw [hstart, hdec, hinc]
  refine ⟨?_, ?_, ?_⟩
  · intro hlt
    rw [if_pos hlt, land_exponent, if_neg]
    omega
  · intro hge hexp
    rw [if_neg hge, land_exponent, if_neg]
    omega
  · intro hge hexp
    rw [if_neg hge, land_exponent, if_pos]
    omega

/-- A word with a clear sign bit, not zero and below the word of `+inf`, is a positive
number. -/
theorem float_to_double_positive (x : Nat) (h0 : 0 < x) (h1 : x < 0x7f800000) :
    ∃ q : ℚ, 0 < q ∧ float_to_double x = Double.finite q := by
  unfold float_to_double
  simp only []
  split_ifs with h1 h2 h3 h4 h5 h6
  · exfalso
    omega
  · exfalso
    omega
  · exfalso
    omega
  · exfalso
    omega
  · exfalso
    omega
  · exact ⟨_, by
      have := float_magnitude_pos (x % 2 ^ 23) 1 (by omega)
      linarith, rfl⟩
  · exfalso
    omega
  · exact ⟨_, by
      have := float_magnitude_pos (2 ^ 23 + x % 2 ^ 23) (x / 2 ^ 23 % 256) (by positivity)
      linarith, rfl⟩

/-- A word with the sign bit set that is no NaN is `-0.0`, `-inf` or a negative number. -/
theorem float_to_double_signed (y : Nat) (h0 : 2 ^ 31 ≤ y) (h1 : y < 2 ^ 32) (hn : ¬ is_nan y) :
    float_to_double y = Double.negZero ∨ float_to_double y = Double.inf true
      ∨ ∃ q : ℚ, q < 0 ∧ float_to_double y = Double.finite q := by
  unfold is_nan at hn
  unfold float_to_double
  simp only []
  split_ifs with h1 h2 h3 h4 h5 h6
  · right
    left
    have : (y / 2 ^ 31 % 2 = 1) := by omega
    rw [decide_eq_true this]
  · exfalso
    omega
  · left
    rfl
  · exfalso
    omega
  · right
    right
    exact ⟨_, by
      have := float_magnitude_pos (y % 2 ^ 23) 1 (by omega)
      linarith, rfl⟩
  · exfalso
    omega
  · right
    right
    exact ⟨_, by
      have := float_magnitude_pos (2 ^ 23 + y % 2 ^ 23) (y / 2 ^ 23 % 256) (by positivity)
      linarith, rfl⟩
  · exfalso
    omega

/-- The same defect for every positive `x` below the greatest float and every `y` with the
sign bit set (a negative number, `-0.0` or `-inf`): `y` is below `x`, and `nextafterf`
returns the word `x + 1`, the float above `x`. -/
theorem nextafterf_positive_x_signed_y (x y : Nat) (hx0 : 0 < x) (hx1 : x < 0x7f7fffff)
    (hy0 : 2 ^ 31 ≤ y) (hy1 : y < 2 ^ 32) (hny : ¬ is_nan y) :
    nextafterf x y = x + 1 := by
  have hne : float_eq x y = false := by
    obtain ⟨q, hq, hxq⟩ := float_to_double_positive x hx0 (by omega)
    unfold float_eq
    rw [hxq]
    rcases float_to_double_signed y hy0 hy1 hny with h | h | ⟨p, hp, h⟩ <;> rw [h] <;>
      simp only [Double.eq, decide_eq_false_iff_not]
    · intro h
      linarith
    · intro h
      linarith
  have hstep := nextafterf_word_step x y (by unfold is_float_word; omega)
    (by unfold is_nan; omega) hny (by unfold is_zero; omega) hne
  exact hstep.2.1 (by omega) (by omega)

end IBuffer
